import Mathlib

/-!
# AD9910 DDS firmware: upload protocol, data model and DDS driver

A shallow embedding of `ad9910_arduino/Constants.h`,
`ad9910_arduino/ArduinoFunctions.h` and `ad9910_arduino/DDSFunctions.h`.

* Bytes are natural numbers below 256, `short`/`int` values are integers.
* The heap buffers allocated by `initLine` / `initProfile` are lists of bytes,
  the two global tables `program` and `profiles` are lists of records.
* The serial port is a pair of character lists: `rx`, the bytes that reach the
  receiver before the read time-out, and `tx`, everything printed so far.
* The pins and the SPI bus are a trace: the list of pin writes, waits and byte
  transfers made so far.
* C behaviour that the language leaves undefined (a null token handed to
  `strtol`, a table access outside the allocated table, a read of a local
  variable that was never assigned) is a `Fault`.
-/

namespace AD9910

/-! ## Constants.h -/

def FTW_LENGTH : Nat := 4
def POW_LENGTH : Nat := 2
def AMPL_LENGTH : Nat := 2
def RAMP_RATE_LENGTH : Nat := 2

/-- The array `zero_reg[8]`. -/
def zero_reg : List Nat := [0x3F, 0xFF, 0x00, 0x00, 0x00, 0x00, 0x00, 0x00]

/-- The struct `line`: one entry of the program. The four `byte*` members are
the buffers that `initLine` allocates (8, 8, 8 and 4 bytes). -/
structure line where
  mode : Int
  enabled : Bool
  sweepInvert : Bool
  single : List Nat
  drLimits : List Nat
  drStepSize : List Nat
  drRate : List Nat
deriving DecidableEq, Repr

/-- The struct `profile`; `dataArray` is the 8-byte buffer of `initProfile`. -/
structure profile where
  channel : Int
  dataArray : List Nat
deriving DecidableEq, Repr

/-! ## ArduinoFunctions.h -/

def NUM_PROFILES : Nat := 8
def MAX_LINES : Nat := 12

/-- The global state the upload functions work on: the two tables and the
serial port. -/
structure Firmware where
  program : List line
  profiles : List profile
  rx : List Char
  tx : List Char
deriving DecidableEq, Repr

/-- What C leaves undefined. -/
inductive Fault where
  | nullToken
  | outOfBounds
  | uninitialised
deriving DecidableEq, Repr

/-- Update of the record at position `i` of a table through its pointer
(`table[i]->field = ...`); positions outside the table are not touched. -/
def modifyNth {α : Type} (xs : List α) (i : Nat) (f : α → α) : List α :=
  match xs[i]? with
  | some x => xs.set i (f x)
  | none => xs

/-- The inner loop of `zeroProfiles`, `n` iterations left, loop counter `j`:
`*(ptr + j) = zero_reg[j]`. -/
def zeroBufferLoop : Nat → Nat → List Nat → List Nat
  | 0, _, buf => buf
  | n + 1, j, buf => zeroBufferLoop n (j + 1) (buf.set j (zero_reg.getD j 0))

/-- The outer loop of `zeroProfiles`, `n` iterations left, loop counter `i`. -/
def zeroProfilesLoop : Nat → Nat → List profile → List profile
  | 0, _, profiles => profiles
  | n + 1, i, profiles =>
    zeroProfilesLoop n (i + 1)
      (modifyNth profiles i fun p =>
        { p with dataArray := zeroBufferLoop (2 * FTW_LENGTH) 0 p.dataArray })

def zeroProfiles (st : Firmware) : Firmware :=
  { st with profiles := zeroProfilesLoop NUM_PROFILES 0 st.profiles }

/-- The loop of `disableLines`, `n` iterations left, loop counter `i`. -/
def disableLinesLoop : Nat → Nat → List line → List line
  | 0, _, program => program
  | n + 1, i, program =>
    disableLinesLoop n (i + 1) (modifyNth program i fun l => { l with enabled := false })

def disableLines (st : Firmware) : Firmware :=
  { st with program := disableLinesLoop MAX_LINES 0 st.program }

/-- The loop of `findEnabledLines`, `n` iterations left, loop counter `i`:
`if (!(program[i]->enabled)) return i - 1;`, and `return 12;` after the loop. -/
def findEnabledLinesLoop (program : List line) : Nat → Nat → Except Fault Int
  | 0, _ => .ok 12
  | n + 1, i =>
    match program[i]? with
    | none => .error .outOfBounds
    | some l => if !l.enabled then .ok ((i : Int) - 1) else findEnabledLinesLoop program n (i + 1)

def findEnabledLines (st : Firmware) : Except Fault Int :=
  findEnabledLinesLoop st.program MAX_LINES 0

/-! ### The serial port and the C library

`Serial`, `String`, `strtok` and `strtol` belong to the Arduino core and the C
library; they are given here by what they compute. -/

/-- The call `Serial.readStringUntil(terminator)`: the characters before the first
terminator, which is consumed and not returned; when the receiver runs dry
first (time-out) everything received is returned. The second component is what
stays in the receiver. -/
def readStringUntil (terminator : Char) (rx : List Char) : List Char × List Char :=
  (rx.takeWhile (fun c => c != terminator), (rx.dropWhile (fun c => c != terminator)).drop 1)

/-- The C string held by a character buffer: it stops at the first NUL. -/
def cString (s : List Char) : List Char :=
  s.takeWhile (fun c => c != Char.ofNat 0)

/-- The call `str.equals(cstr)` for a literal: `strcmp` on the buffer of `str`, and an
empty `str` equals only the empty literal. -/
def equals (str cstr : List Char) : Bool :=
  if str.length = 0 then cstr.isEmpty else cString str == cstr

/-- The call `str.toCharArray(temp_char, str.length() + 1)`, read as a C string. -/
def toCharArray (str : List Char) : List Char :=
  cString str

/-- The tokens that the successive calls `strtok(temp_char, &sep)`,
`strtok(NULL, &sep)`, ... return before they return `NULL`, for the separator
`sep = ','`: the maximal comma-free pieces that are not empty. -/
def strtokAll (temp_char : List Char) : List (List Char) :=
  (temp_char.splitOn ',').filter fun t => !t.isEmpty

/-- The function `isspace` in the C locale. -/
def isspace (c : Char) : Bool :=
  c.toNat = 32 || (9 ≤ c.toNat && c.toNat ≤ 13)

/-- Value of a character as a digit in base 16, if it is one. -/
def hexDigit (c : Char) : Option Nat :=
  let n := c.toNat
  if 48 ≤ n ∧ n ≤ 57 then some (n - 48)
  else if 97 ≤ n ∧ n ≤ 102 then some (n - 87)
  else if 65 ≤ n ∧ n ≤ 70 then some (n - 55)
  else none

/-- The digit loop of `strtol`: it stops at the first character that is not a
digit of the base. -/
def strtolDigits : Nat → List Char → Nat
  | acc, [] => acc
  | acc, c :: cs =>
    match hexDigit c with
    | some d => strtolDigits (acc * 16 + d) cs
    | none => acc

/-- The call `strtol(token, NULL, 16)` for a 32-bit `long`: white space is skipped, then
an optional sign and an optional `0x`/`0X`, then the digits; a value out of
range is clamped to `LONG_MIN` / `LONG_MAX`. -/
def strtol16 (token : List Char) : Int :=
  let s := token.dropWhile isspace
  let signed : Bool × List Char :=
    match s with
    | '-' :: r => (true, r)
    | '+' :: r => (false, r)
    | _ => (false, s)
  let digits :=
    match signed.2 with
    | '0' :: 'x' :: r => r
    | '0' :: 'X' :: r => r
    | r => r
  let v : Int := strtolDigits 0 digits
  if signed.1 then max (-v) (-2147483648) else min v 2147483647

/-- The cast `byte(strtol(token, NULL, 16))`: the low eight bits. -/
def hexByte (token : List Char) : Nat :=
  (strtol16 token % 256).toNat

/-- The targets `ptr` can point to. -/
inductive Ptr where
  | single (index : Nat)
  | drLimits (index : Nat)
  | drStepSize (index : Nat)
  | drRate (index : Nat)
  | dataArray (profileIndex : Nat)
deriving DecidableEq, Repr

/-- The assignment `*(ptr + i) = temp_byte`. -/
def store (st : Firmware) (ptr : Ptr) (i : Nat) (temp_byte : Nat) : Firmware :=
  match ptr with
  | .single index =>
    { st with program := modifyNth st.program index fun l =>
        { l with single := l.single.set i temp_byte } }
  | .drLimits index =>
    { st with program := modifyNth st.program index fun l =>
        { l with drLimits := l.drLimits.set i temp_byte } }
  | .drStepSize index =>
    { st with program := modifyNth st.program index fun l =>
        { l with drStepSize := l.drStepSize.set i temp_byte } }
  | .drRate index =>
    { st with program := modifyNth st.program index fun l =>
        { l with drRate := l.drRate.set i temp_byte } }
  | .dataArray profileIndex =>
    { st with profiles := modifyNth st.profiles profileIndex fun p =>
        { p with dataArray := p.dataArray.set i temp_byte } }

/-- The loop `while (token != NULL)` at the end of `readLineFromSerial`, over the
tokens still to come; `ptr` and `readLength` are `none` while unassigned. -/
def storeLoop (ptr : Option Ptr) (readLength : Option Nat) :
    List (List Char) → Nat → Firmware → Except Fault Firmware
  | [], _, st => .ok st
  | token :: tokens, i, st =>
    let temp_byte := hexByte token
    match readLength with
    | none => .error .uninitialised
    | some n =>
      if i < n then
        match ptr with
        | none => .error .uninitialised
        | some p => storeLoop ptr readLength tokens (i + 1) (store st p i temp_byte)
      else storeLoop ptr readLength tokens (i + 1) st

/-- The tail of `readLineFromSerial`: the store loop, then `return index`. -/
def storeAndReturn (index : Nat) (ptr : Option Ptr) (readLength : Option Nat)
    (tokens : List (List Char)) (st : Firmware) : Except Fault (Int × Firmware) :=
  match storeLoop ptr readLength tokens 0 st with
  | .ok st1 => .ok ((index : Int), st1)
  | .error e => .error e

/-- The data-line branch of `readLineFromSerial`, from the first `strtok` on. -/
def readDataLine (st : Firmware) (temp_char : List Char) : Except Fault (Int × Firmware) :=
  match strtokAll temp_char with
  | [] => .error .nullToken
  | [_] => .error .nullToken
  | token0 :: token1 :: tokens =>
    let index := hexByte token0
    let type := hexByte token1
    if index < 12 then
      match st.program[index]? with
      | none => .error .outOfBounds
      | some _ =>
        let st1 := { st with program := modifyNth st.program index fun l =>
                      { l with enabled := true } }
        match type with
        | 0 =>
          storeAndReturn index (some (.single index))
            (some (AMPL_LENGTH + POW_LENGTH + FTW_LENGTH)) tokens
            { st1 with program := modifyNth st1.program index fun l => { l with mode := 0 } }
        | 1 =>
          storeAndReturn index (some (.drLimits index)) (some (2 * FTW_LENGTH)) tokens
            { st1 with program := modifyNth st1.program index fun l => { l with mode := 1 } }
        | 2 =>
          storeAndReturn index (some (.drStepSize index)) (some (2 * FTW_LENGTH)) tokens
            { st1 with program := modifyNth st1.program index fun l => { l with mode := 1 } }
        | 3 =>
          storeAndReturn index (some (.drRate index)) (some (2 * RAMP_RATE_LENGTH)) tokens
            { st1 with program := modifyNth st1.program index fun l => { l with mode := 1 } }
        | 4 =>
          let invert : Bool :=
            match tokens.head? with
            | some token => hexByte token == 1
            | none => false
          storeAndReturn index none (some 0) tokens.tail
            { st1 with program := modifyNth st1.program index fun l =>
                { l with sweepInvert := invert } }
        | _ => storeAndReturn index none none tokens st1
    else
      let profileIndex := index - 12
      match st.profiles[profileIndex]? with
      | none => .error .outOfBounds
      | some _ =>
        storeAndReturn index (some (.dataArray profileIndex))
          (some (AMPL_LENGTH + POW_LENGTH + FTW_LENGTH)) tokens st

/-- The function `readLineFromSerial`: the return code and the state after. -/
def readLineFromSerial (st : Firmware) : Except Fault (Int × Firmware) :=
  if st.rx.length > 0 then
    let first := readStringUntil '\n' st.rx
    let read := if first.1.length = 0 then readStringUntil '\n' first.2 else first
    let str := read.1
    let st1 := { st with rx := read.2 }
    if equals str "cxn?".toList then
      .ok (-1, { st1 with tx := st1.tx ++ "ad9910\n".toList })
    else if equals str "Done".toList then
      .ok (-2, st1)
    else
      readDataLine st1 (toCharArray str)
  else
    .ok (-4, st)

/-! ### States used in examples -/

/-- A line as `initLine` leaves it, with zeroed buffers. -/
def blankLine : line :=
  { mode := 0, enabled := false, sweepInvert := false,
    single := List.replicate 8 0, drLimits := List.replicate 8 0,
    drStepSize := List.replicate 8 0, drRate := List.replicate 4 0 }

/-- The tables after `initProgram` and `initProfiles` with zeroed buffers, and a
serial port that holds `rx`. -/
def bootState (rx : List Char) : Firmware :=
  { program := List.replicate 12 blankLine,
    profiles := (List.range 8).map fun i => { channel := i, dataArray := List.replicate 8 0 },
    rx := rx, tx := [] }

/-- The booted tables with every Step enabled. -/
def allEnabledState : Firmware :=
  { bootState [] with program := List.replicate 12 { blankLine with enabled := true } }

/-- The booted tables with Steps 0, 1 and 2 enabled. -/
def threeEnabledState : Firmware :=
  { bootState [] with
    program := List.replicate 3 { blankLine with enabled := true } ++ List.replicate 9 blankLine }

/-! ### Vocabulary of the statements -/

/-- The tables as `initProgram` and `initProfiles` allocate them: 12 lines with
buffers of 8, 8, 8 and 4 bytes, and 8 profiles with buffers of 8 bytes. -/
def Allocated (st : Firmware) : Prop :=
  st.program.length = 12 ∧
    (∀ l ∈ st.program, l.single.length = 8 ∧ l.drLimits.length = 8 ∧
      l.drStepSize.length = 8 ∧ l.drRate.length = 4) ∧
    st.profiles.length = 8 ∧ (∀ p ∈ st.profiles, p.dataArray.length = 8)

instance (st : Firmware) : Decidable (Allocated st) := by
  unfold Allocated
  infer_instance

/-- A field of a data line: not empty, and free of the separator, of the line
terminator and of NUL. -/
def isField (f : List Char) : Bool :=
  !f.isEmpty && f.all fun c => c != ',' && c != '\n' && c != Char.ofNat 0

/-- The text of the data line that carries the given fields: the fields joined
by commas. -/
def wire (fields : List (List Char)) : List Char :=
  [','].intercalate fields

/-- The buffer of a line that record type `t` addresses. -/
def targetBuffer (t : Nat) (l : line) : List Nat :=
  match t with
  | 0 => l.single
  | 1 => l.drLimits
  | 2 => l.drStepSize
  | _ => l.drRate

/-- The declared length of the buffer that record type `t` addresses. -/
def declaredLength (t : Nat) : Nat :=
  match t with
  | 0 => AMPL_LENGTH + POW_LENGTH + FTW_LENGTH
  | 1 => 2 * FTW_LENGTH
  | 2 => 2 * FTW_LENGTH
  | _ => 2 * RAMP_RATE_LENGTH

/-- The effect of the store loop on the buffer it writes: byte number `i`,
`i + 1`, ... of the payload goes to the position of the same number as long as
that is below `readLength`. -/
def writeBytes (readLength : Nat) : List Nat → Nat → List Nat → List Nat
  | [], _, buf => buf
  | b :: bs, i, buf => writeBytes readLength bs (i + 1) (if i < readLength then buf.set i b else buf)

/-- Apply `g` to the buffer `ptr` points to. -/
def setBuffer (st : Firmware) (ptr : Ptr) (g : List Nat → List Nat) : Firmware :=
  match ptr with
  | .single index =>
    { st with program := modifyNth st.program index fun l => { l with single := g l.single } }
  | .drLimits index =>
    { st with program := modifyNth st.program index fun l => { l with drLimits := g l.drLimits } }
  | .drStepSize index =>
    { st with program := modifyNth st.program index fun l =>
        { l with drStepSize := g l.drStepSize } }
  | .drRate index =>
    { st with program := modifyNth st.program index fun l => { l with drRate := g l.drRate } }
  | .dataArray profileIndex =>
    { st with profiles := modifyNth st.profiles profileIndex fun p =>
        { p with dataArray := g p.dataArray } }

/-- What a data line of record type `t ≤ 3` with the payload `bytes` does to
the line it addresses. -/
def updateLine (t : Nat) (bytes : List Nat) (l : line) : line :=
  match t with
  | 0 => { l with enabled := true, mode := 0, single := writeBytes 8 bytes 0 l.single }
  | 1 => { l with enabled := true, mode := 1, drLimits := writeBytes 8 bytes 0 l.drLimits }
  | 2 => { l with enabled := true, mode := 1, drStepSize := writeBytes 8 bytes 0 l.drStepSize }
  | _ => { l with enabled := true, mode := 1, drRate := writeBytes 4 bytes 0 l.drRate }

/-- The value `invert` has after `case 4`, from the tokens behind the type. -/
def invertOf (tokens : List (List Char)) : Bool :=
  match tokens.head? with
  | some token => hexByte token == 1
  | none => false

/-- The field that writes `n` in upper-case hexadecimal, without leading
zeros. -/
def hexField (n : Nat) : List Char :=
  (Nat.toDigits 16 n).map Char.toUpper

/-- The state in which `text` waits in the receiver. -/
def receive (st : Firmware) (text : List Char) : Firmware :=
  { st with rx := text }

/-- An upload seen from the caller: `n` successive calls of
`readLineFromSerial`, with the list of their return codes. -/
def readLines : Nat → Firmware → Except Fault (List Int × Firmware)
  | 0, st => .ok ([], st)
  | n + 1, st =>
    match readLineFromSerial st with
    | .error e => .error e
    | .ok (r, st1) =>
      match readLines n st1 with
      | .error e => .error e
      | .ok (rs, st2) => .ok (r :: rs, st2)

/-- The state after the upload of the two lines `0,0,1` and `1,0,2` to the
booted tables. -/
def twoLinesUploaded : Firmware :=
  { bootState [] with
    program :=
      [{ blankLine with enabled := true, single := [1, 0, 0, 0, 0, 0, 0, 0] },
       { blankLine with enabled := true, single := [2, 0, 0, 0, 0, 0, 0, 0] }] ++
        List.replicate 10 blankLine }

/-! ## Constants.h: register map -/

def CFR1 : Nat := 0x00
def CFR2 : Nat := 0x01
def CFR3 : Nat := 0x02
def AUXDAC : Nat := 0x03
def DRL : Nat := 0x0B
def DRSS : Nat := 0x0C
def DRR : Nat := 0x0D
def P0 : Nat := 0x0E
def P7 : Nat := 0x15
def RAM : Nat := 0x16

/-- The array `regDepths[23]`. -/
def regDepths : List Int :=
  [4, 4, 4, 4,
   4, 0, 0, 4,
   2, 4, 4, 8,
   8, 4, 8, 8,
   8, 8, 8, 8,
   8, 8, 4]

def cfr1_bytes : List Nat := [0x00, 0x20, 0x00, 0x00]
def cfr2_bytes : List Nat := [0x01, 0x40, 0x00, 0x20]
def cfr3_bytes : List Nat := [0x07, 0x00, 0x40, 0x00]
def auxdac_bytes : List Nat := [0x00, 0x00, 0x00, 0x7F]
def cfr2_bytes_drg_enable : List Nat := [0x00, 0x48, 0x00, 0x20]

/-! ## DDSFunctions.h -/

/-- The pins of the port map, and `SS` of the Arduino core. -/
inductive Pin where
  | DRCTL
  | DRHOLD
  | IO_RESET
  | OSK
  | IO_UPDATE
  | RESET
  | TRIG
  | SS
deriving DecidableEq, Repr

abbrev HIGH : Bool := true
abbrev LOW : Bool := false

/-- What the driver does to the outside: a pin write, a busy wait, or the
transfer of one byte on the SPI bus. -/
inductive Event where
  | digitalWrite (pin : Pin) (level : Bool)
  | delayMicroseconds (us : Nat)
  | transfer (data : Nat)
deriving DecidableEq, Repr

/-- The function `ioUpdate`, on the trace of events so far. -/
def ioUpdate (hw : List Event) : List Event :=
  hw ++ [.digitalWrite .IO_UPDATE HIGH, .delayMicroseconds 50, .digitalWrite .IO_UPDATE LOW]

/-- The function `ioReset`, on the trace of events so far. -/
def ioReset (hw : List Event) : List Event :=
  hw ++ [.digitalWrite .IO_RESET HIGH, .delayMicroseconds 100, .digitalWrite .IO_UPDATE LOW]

/-- The loop `for (int i = 0; i < num_bytes; i++) SPI.transfer(*(bytes + i));` of
`writeRegister`, `n` iterations left, loop counter `i`; `bytes` is the array the
pointer refers to. -/
def transferLoop (bytes : List Nat) : Nat → Nat → List Event → Except Fault (List Event)
  | 0, _, hw => .ok hw
  | n + 1, i, hw =>
    match bytes[i]? with
    | none => .error .outOfBounds
    | some b => transferLoop bytes n (i + 1) (hw ++ [.transfer b])

/-- The function `writeRegister`: the return code and the trace after. The
register address is one of the constants of the register map, a natural
number; `SPI.transfer` takes it as a byte. -/
def writeRegister (reg : Nat) (bytes : List Nat) (num_bytes : Int) (hw : List Event) :
    Except Fault (Int × List Event) :=
  match regDepths[reg]? with
  | none => .error .outOfBounds
  | some regDepth =>
    if num_bytes > regDepth then
      .ok (-1, hw)
    else
      let hw1 := hw ++ [.digitalWrite .SS LOW]
      let hw2 := hw1 ++ [.transfer (reg % 256)]
      match transferLoop bytes num_bytes.toNat 0 hw2 with
      | .error e => .error e
      | .ok hw3 =>
        let hw4 := if num_bytes < regDepth then ioReset hw3 else hw3
        .ok (0, hw4 ++ [.digitalWrite .SS HIGH])

/-- The function `ddsCFRInit`. -/
def ddsCFRInit (hw : List Event) : Except Fault (Int × List Event) :=
  match writeRegister CFR1 cfr1_bytes 4 hw with
  | .error e => .error e
  | .ok (err1, hw1) =>
    if err1 ≠ 0 then .ok (-1, hw1)
    else
      match writeRegister CFR2 cfr2_bytes 4 (ioUpdate hw1) with
      | .error e => .error e
      | .ok (err2, hw2) =>
        if err2 ≠ 0 then .ok (-2, hw2)
        else
          match writeRegister CFR3 cfr3_bytes 4 (ioUpdate hw2) with
          | .error e => .error e
          | .ok (err3, hw3) =>
            if err3 ≠ 0 then .ok (-3, hw3)
            else
              match writeRegister AUXDAC auxdac_bytes 4 (ioUpdate hw3) with
              | .error e => .error e
              | .ok (err4, hw4) =>
                if err4 ≠ 0 then .ok (-4, hw4)
                else .ok (0, ioUpdate hw4)

/-- The function `drgEnable`; the return code of `writeRegister` is dropped. -/
def drgEnable (flag : Bool) (hw : List Event) : Except Fault (List Event) :=
  if flag then
    match writeRegister CFR2 cfr2_bytes_drg_enable 4 hw with
    | .error e => .error e
    | .ok (_, hw1) => .ok hw1
  else
    match writeRegister CFR2 cfr2_bytes 4 hw with
    | .error e => .error e
    | .ok (_, hw1) => .ok hw1

/-- The level a pin was last driven to in a trace, if it was driven at all. -/
def pinLevel (pin : Pin) : List Event → Option Bool
  | [] => none
  | .digitalWrite p level :: hw =>
    match pinLevel pin hw with
    | some later => some later
    | none => if p = pin then some level else none
  | _ :: hw => pinLevel pin hw

/-- The pins a trace drives, in order. -/
def pinsWritten (hw : List Event) : List Pin :=
  hw.filterMap fun e =>
    match e with
    | .digitalWrite p _ => some p
    | _ => none

/-- The bytes a trace sends over SPI, in order. -/
def bytesTransferred (hw : List Event) : List Nat :=
  hw.filterMap fun e =>
    match e with
    | .transfer b => some b
    | _ => none

/-- The events of one register write that is neither rejected nor followed by
an I/O reset: SS low, the address byte, the payload bytes, SS high. -/
def registerWrite (reg : Nat) (bytes : List Nat) : List Event :=
  [.digitalWrite .SS LOW, .transfer reg] ++ bytes.map Event.transfer ++ [.digitalWrite .SS HIGH]

/-! ## ArduinoFunctions.h: the echo -/

/-- Output of `Serial.print(n)` for an `int` that is not negative: the decimal
digits. -/
def printDEC (n : Nat) : List Char :=
  Nat.toDigits 10 n

/-- Output of `Serial.print(n, HEX)` for a `short` or an `int`: the value is
converted to `unsigned long`, 32 bits wide, and printed in upper-case
hexadecimal. -/
def printHEX (n : Int) : List Char :=
  hexField (n % 4294967296).toNat

/-- The loops `for (int i = 0; i < n; i++) { Serial.print(buf[i], HEX);
Serial.print(","); }` of the two print functions, `n` iterations left, loop
counter `i`, on the output so far. -/
def printBytesLoop (buf : List Nat) : Nat → Nat → List Char → Except Fault (List Char)
  | 0, _, tx => .ok tx
  | n + 1, i, tx =>
    match buf[i]? with
    | none => .error .outOfBounds
    | some b => printBytesLoop buf n (i + 1) (tx ++ hexField b ++ [','])

/-- The function `serialPrintProgram`. It has a `return` only where it rejects
the index; the return value is `none` where control reaches the end of the
function without one. -/
def serialPrintProgram (index : Int) (st : Firmware) : Except Fault (Option Int × Firmware) :=
  if index ≥ 12 then
    .ok (some (-1), st)
  else if index < 0 then
    .error .outOfBounds
  else
    match st.program[index.toNat]? with
    | none => .error .outOfBounds
    | some ptr =>
      let tx1 := st.tx ++ printDEC index.toNat ++ [','] ++ printHEX ptr.mode ++ [','] ++
        (if ptr.sweepInvert then printDEC 1 else printDEC 0) ++ [','] ++ ['\n']
      if ptr.mode = 0 then
        match printBytesLoop ptr.single (AMPL_LENGTH + POW_LENGTH + FTW_LENGTH) 0 tx1 with
        | .error e => .error e
        | .ok tx2 => .ok (none, { st with tx := tx2 ++ ['\n'] })
      else if ptr.mode = 1 then
        match printBytesLoop ptr.drLimits (2 * FTW_LENGTH) 0 tx1 with
        | .error e => .error e
        | .ok tx2 =>
          match printBytesLoop ptr.drStepSize (2 * FTW_LENGTH) 0 (tx2 ++ ['\n']) with
          | .error e => .error e
          | .ok tx3 =>
            match printBytesLoop ptr.drRate (2 * RAMP_RATE_LENGTH) 0 (tx3 ++ ['\n']) with
            | .error e => .error e
            | .ok tx4 => .ok (none, { st with tx := tx4 ++ ['\n'] })
      else
        .ok (none, { st with tx := tx1 })

/-- The function `serialPrintProfile`, with the same convention for the return
value. -/
def serialPrintProfile (index : Int) (st : Firmware) : Except Fault (Option Int × Firmware) :=
  if index ≥ 8 then
    .ok (some (-1), st)
  else if index < 0 then
    .error .outOfBounds
  else
    match st.profiles[index.toNat]? with
    | none => .error .outOfBounds
    | some ptr =>
      let tx1 := st.tx ++ printHEX index ++ [','] ++ ['\n']
      match printBytesLoop ptr.dataArray (2 * FTW_LENGTH) 0 tx1 with
      | .error e => .error e
      | .ok tx2 => .ok (none, { st with tx := tx2 ++ ['\n'] })

/-- The first loop of `echoData`, `n` iterations left, loop counter `i`. -/
def echoProgramLoop : Nat → Nat → Firmware → Except Fault Firmware
  | 0, _, st => .ok st
  | n + 1, i, st =>
    match serialPrintProgram (i : Int) st with
    | .error e => .error e
    | .ok (_, st1) => echoProgramLoop n (i + 1) st1

/-- The second loop of `echoData`, `n` iterations left, loop counter `i`. -/
def echoProfileLoop : Nat → Nat → Firmware → Except Fault Firmware
  | 0, _, st => .ok st
  | n + 1, i, st =>
    match serialPrintProfile (i : Int) st with
    | .error e => .error e
    | .ok (_, st1) => echoProfileLoop n (i + 1) st1

/-- The function `echoData`; the first loop runs for `i = 0, ..., lastLine`. -/
def echoData (lastLine : Int) (st : Firmware) : Except Fault Firmware :=
  match echoProgramLoop (lastLine + 1).toNat 0 st with
  | .error e => .error e
  | .ok st1 => echoProfileLoop NUM_PROFILES 0 st1

/-- The call `echoData(findEnabledLines())`. -/
def echoEnabled (st : Firmware) : Except Fault Firmware :=
  match findEnabledLines st with
  | .error e => .error e
  | .ok lastLine => echoData lastLine st

/-! ### The echoed text in closed form -/

/-- A payload line: every byte in upper-case hexadecimal followed by a comma,
then the newline. -/
def hexLine (buf : List Nat) : List Char :=
  (buf.map fun b => hexField b ++ [',']).flatten ++ ['\n']

/-- The header line of a Step: index in decimal, mode in hexadecimal, 1 or 0
for `sweepInvert`, each followed by a comma. -/
def programHeader (i : Nat) (l : line) : List Char :=
  printDEC i ++ [','] ++ printHEX l.mode ++ [','] ++ (if l.sweepInvert then ['1'] else ['0']) ++
    [',', '\n']

/-- The lines printed for a Step. -/
def programBlock (i : Nat) (l : line) : List Char :=
  programHeader i l ++
    (if l.mode = 0 then hexLine l.single
     else if l.mode = 1 then hexLine l.drLimits ++ hexLine l.drStepSize ++ hexLine l.drRate
     else [])

/-- The lines printed for a Profile. -/
def profileBlock (k : Nat) (p : profile) : List Char :=
  hexField k ++ [',', '\n'] ++ hexLine p.dataArray

/-- The blocks of the given Steps, the first of which has index `i`. -/
def programBlocks : Nat → List line → List Char
  | _, [] => []
  | i, l :: ls => programBlock i l ++ programBlocks (i + 1) ls

/-- The blocks of the given Profiles, the first of which has index `k`. -/
def profileBlocks : Nat → List profile → List Char
  | _, [] => []
  | k, p :: ps => profileBlock k p ++ profileBlocks (k + 1) ps

/-- The booted tables after the upload of `0,0,0F,FF,00,00,20,00,00,00`. -/
def singleToneUploaded : Firmware :=
  { bootState [] with
    program :=
      { blankLine with enabled := true, single := [0x0F, 0xFF, 0, 0, 0x20, 0, 0, 0] } ::
        List.replicate 11 blankLine,
    profiles := (List.range 8).map fun i => { channel := i, dataArray := zero_reg } }

/-- The booted tables after `zeroProfiles` and the upload of
`0,1,1,2,3,4,5,6,7,8`. -/
def sweepUploaded : Firmware :=
  { bootState [] with
    program :=
      { blankLine with enabled := true, mode := 1, drLimits := [1, 2, 3, 4, 5, 6, 7, 8] } ::
        List.replicate 11 blankLine,
    profiles := (List.range 8).map fun i => { channel := i, dataArray := zero_reg } }

/-- The text `echoData(findEnabledLines())` prints for `singleToneUploaded`. -/
def singleToneEcho : List Char :=
  "0,0,0,\nF,FF,0,0,20,0,0,0,\n".toList ++
    "0,\n3F,FF,0,0,0,0,0,0,\n1,\n3F,FF,0,0,0,0,0,0,\n".toList ++
    "2,\n3F,FF,0,0,0,0,0,0,\n3,\n3F,FF,0,0,0,0,0,0,\n".toList ++
    "4,\n3F,FF,0,0,0,0,0,0,\n5,\n3F,FF,0,0,0,0,0,0,\n".toList ++
    "6,\n3F,FF,0,0,0,0,0,0,\n7,\n3F,FF,0,0,0,0,0,0,\n".toList

deriving instance DecidableEq for Except


/-! ## Tables -/

theorem length_modifyNth {α : Type} (xs : List α) (i : Nat) (f : α → α) :
    (modifyNth xs i f).length = xs.length := by
  unfold modifyNth
  split <;> simp

theorem getElem?_modifyNth {α : Type} (xs : List α) (i j : Nat) (f : α → α) :
    (modifyNth xs i f)[j]? = if i = j then xs[j]?.map f else xs[j]? := by
  unfold modifyNth
  split
  · next x hx =>
    by_cases h : i = j
    · subst h
      have hlt : i < xs.length := by
        by_contra hlt
        have := List.getElem?_eq_none_iff.mpr (Nat.le_of_not_lt hlt)
        simp [hx] at this
      simp [hx, List.getElem?_set, hlt]
    · simp [h, List.getElem?_set]
  · next hx =>
    by_cases h : i = j
    · subst h; simp [hx]
    · simp [h]

theorem getElem?_disableLinesLoop (n : Nat) : ∀ (i : Nat) (program : List line) (j : Nat),
    (disableLinesLoop n i program)[j]? =
      if i ≤ j ∧ j < i + n then program[j]?.map (fun l => { l with enabled := false })
      else program[j]? := by
  induction n with
  | zero =>
    intro i program j
    have : ¬ (i ≤ j ∧ j < i) := by omega
    simp [disableLinesLoop, this]
  | succ n ih =>
    intro i program j
    rw [disableLinesLoop, ih, getElem?_modifyNth]
    by_cases h1 : i = j
    · subst h1; simp
    · by_cases h2 : i + 1 ≤ j
      · have h3 : i ≤ j := by omega
        have h4 : (j < i + 1 + n) = (j < i + (n + 1)) := by
          apply propext; constructor <;> intro h <;> omega
        simp [h1, h2, h3, h4]
      · have h3 : ¬ i ≤ j := by omega
        simp [h1, h2, h3]

theorem length_disableLinesLoop (n : Nat) : ∀ (i : Nat) (program : List line),
    (disableLinesLoop n i program).length = program.length := by
  induction n with
  | zero => intro i program; simp [disableLinesLoop]
  | succ n ih => intro i program; rw [disableLinesLoop, ih, length_modifyNth]

/-- The search loop on a table whose enabled flags are `k` times `true` followed
by `m` times `false`, entered at `i ≤ k` with enough iterations left to reach
position `k`. -/
theorem findEnabledLinesLoop_flags (program : List line) (k m : Nat)
    (hflags : program.map line.enabled = List.replicate k true ++ List.replicate m false) :
    ∀ (n i : Nat), i ≤ k → k < i + n → k < k + m →
      findEnabledLinesLoop program n i = .ok ((k : Int) - 1) := by
  intro n
  induction n with
  | zero => intro i h1 h2 _; omega
  | succ n ih =>
    intro i h1 h2 hm
    have hlen : program.length = k + m := by
      have := congrArg List.length hflags
      simpa using this
    have hi : i < program.length := by omega
    have hget : program[i]? = some program[i] := List.getElem?_eq_getElem hi
    have hflag : (program.map line.enabled)[i]? = some (program[i]).enabled := by
      simp [hget]
    rw [findEnabledLinesLoop, hget]
    simp only
    by_cases hik : i < k
    · have : (program[i]).enabled = true := by
        rw [hflags, List.getElem?_append_left (by simpa using hik)] at hflag
        simp [List.getElem?_replicate, hik] at hflag
        exact hflag
      simp [this]
      exact ih (i + 1) (by omega) (by omega) hm
    · have hik2 : i = k := by omega
      have : (program[i]).enabled = false := by
        rw [hflags, List.getElem?_append_right (by simp; omega)] at hflag
        simp [List.getElem?_replicate] at hflag
        have : i - k < m := by omega
        simp [this] at hflag
        exact hflag
      subst hik2
      simp [this]

theorem findEnabledLinesLoop_all (program : List line) :
    ∀ (n i : Nat), i + n = program.length → (∀ l ∈ program, l.enabled = true) →
      findEnabledLinesLoop program n i = .ok 12 := by
  intro n
  induction n with
  | zero => intro i _ _; rfl
  | succ n ih =>
    intro i h1 h2
    have hi : i < program.length := by omega
    rw [findEnabledLinesLoop, List.getElem?_eq_getElem hi]
    simp [h2 _ (List.getElem_mem hi)]
    exact ih (i + 1) (by omega) h2

theorem flags_disableLines (st : Firmware) (hlen : st.program.length = 12) :
    (disableLines st).program.map line.enabled = List.replicate 12 false := by
  apply List.ext_getElem?
  intro j
  rw [List.getElem?_replicate]
  simp only [disableLines, MAX_LINES, List.getElem?_map, getElem?_disableLinesLoop]
  by_cases hj : j < 12
  · have h1 : (0 ≤ j ∧ j < 0 + 12) := by omega
    have h2 : j < st.program.length := by omega
    simp [h1, List.getElem?_eq_getElem h2, hj]
  · have h1 : ¬ (0 ≤ j ∧ j < 0 + 12) := by omega
    have h2 : st.program.length ≤ j := by omega
    simp [h1, List.getElem?_eq_none_iff.mpr h2, hj]

/-! ## findEnabledLines -/

/-- C1: on a program table of 12 Steps that are all enabled, `findEnabledLines`
returns 12, the value of its final `return 12;`, and not 11, the index of the
last enabled Step. -/
theorem findEnabledLines_all_enabled (st : Firmware) (hlen : st.program.length = 12)
    (hall : ∀ l ∈ st.program, l.enabled = true) :
    findEnabledLines st = .ok 12 :=
  findEnabledLinesLoop_all st.program 12 0 (by omega) hall

theorem findEnabledLines_all_enabled_witness :
    (allEnabledState).program.length = 12 ∧
      (∀ l ∈ (allEnabledState).program, l.enabled = true) ∧
      findEnabledLines allEnabledState = .ok 12 ∧
      findEnabledLines allEnabledState ≠ .ok 11 :=
  ⟨by decide, by decide,
    findEnabledLines_all_enabled allEnabledState (by decide) (by decide), by decide⟩

/-- C2: when the enabled flags of the 12 Steps are `k` times true followed by
`12 - k` times false, with `k < 12`, `findEnabledLines` returns `k - 1`; and
directly after `disableLines` it returns `-1`. -/
theorem findEnabledLines_initial_segment (st : Firmware) (k : Nat) (hk : k < 12)
    (hflags : st.program.map line.enabled =
      List.replicate k true ++ List.replicate (12 - k) false) :
    findEnabledLines st = .ok ((k : Int) - 1) ∧
      findEnabledLines (disableLines st) = .ok (-1) := by
  have hlen : st.program.length = 12 := by
    have := congrArg List.length hflags
    simp at this
    omega
  constructor
  · exact findEnabledLinesLoop_flags st.program k (12 - k) hflags 12 0 (by omega) (by omega)
      (by omega)
  · have h0 := findEnabledLinesLoop_flags (disableLines st).program 0 12
      (by simpa using flags_disableLines st hlen) 12 0 (by omega) (by omega) (by omega)
    simpa [findEnabledLines, MAX_LINES] using h0

theorem findEnabledLines_initial_segment_witness :
    (3 : Nat) < 12 ∧
      (threeEnabledState).program.map line.enabled =
        List.replicate 3 true ++ List.replicate (12 - 3) false ∧
      findEnabledLines threeEnabledState = .ok 2 ∧
      findEnabledLines (disableLines threeEnabledState) = .ok (-1) :=
  ⟨by decide, by decide,
    (findEnabledLines_initial_segment threeEnabledState 3 (by decide) (by decide)).1,
    (findEnabledLines_initial_segment threeEnabledState 3 (by decide) (by decide)).2⟩


/-! ## Data lines on the wire -/

theorem mem_intersperse_cases {α : Type} (sep : α) :
    ∀ (xs : List α) (l : α), l ∈ xs.intersperse sep → l = sep ∨ l ∈ xs
  | [], l, h => by simp at h
  | [x], l, h => by
    right
    simpa using h
  | x :: y :: zs, l, h => by
    rw [List.intersperse_cons₂] at h
    simp only [List.mem_cons] at h
    rcases h with h | h | h
    · exact Or.inr (by simp [h])
    · exact Or.inl h
    · rcases mem_intersperse_cases sep (y :: zs) l h with h | h
      · exact Or.inl h
      · exact Or.inr (List.mem_cons_of_mem _ h)

theorem mem_wire {c : Char} {fields : List (List Char)} (h : c ∈ wire fields) :
    c = ',' ∨ ∃ f ∈ fields, c ∈ f := by
  unfold wire at h
  rw [List.intercalate, List.mem_flatten] at h
  obtain ⟨l, hl, hc⟩ := h
  rcases mem_intersperse_cases _ _ _ hl with h | h
  · subst h
    left
    simpa using hc
  · exact Or.inr ⟨l, h, hc⟩

theorem isField_iff (f : List Char) :
    isField f = true ↔ f ≠ [] ∧ ∀ c ∈ f, c ≠ ',' ∧ c ≠ '\n' ∧ c ≠ Char.ofNat 0 := by
  unfold isField
  cases f with
  | nil => simp
  | cons a as =>
    simp only [List.isEmpty_cons, Bool.not_false, Bool.true_and, List.all_eq_true,
      Bool.and_eq_true, bne_iff_ne, ne_eq, not_false_eq_true, true_and, reduceCtorEq]
    constructor
    · intro h c hc
      have := h c hc
      tauto
    · intro h c hc
      have := h c hc
      tauto

theorem wire_ne_nil (a : List Char) (fields : List (List Char)) (ha : a ≠ []) :
    wire (a :: fields) ≠ [] := by
  cases a with
  | nil => exact absurd rfl ha
  | cons c cs =>
    cases fields with
    | nil => simp [wire, List.intercalate]
    | cons b bs => simp [wire, List.intercalate]

theorem comma_mem_wire (a b : List Char) (fields : List (List Char)) :
    ',' ∈ wire (a :: b :: fields) := by
  simp [wire, List.intercalate]

theorem strtokAll_wire (fields : List (List Char)) (hne : fields ≠ [])
    (hf : ∀ f ∈ fields, isField f = true) : strtokAll (wire fields) = fields := by
  unfold strtokAll wire
  have hsep : ∀ l ∈ fields, ',' ∉ l := by
    intro l hl hmem
    exact (((isField_iff l).mp (hf l hl)).2 _ hmem).1 rfl
  rw [List.splitOn_intercalate fields ',' hsep hne, List.filter_eq_self]
  intro f hfm
  have := (isField_iff f).mp (hf f hfm)
  cases f with
  | nil => exact absurd rfl this.1
  | cons _ _ => rfl


/-! ## The store loop -/

theorem modifyNth_id {α : Type} (xs : List α) (i : Nat) : modifyNth xs i (fun x => x) = xs := by
  apply List.ext_getElem?
  intro j
  rw [getElem?_modifyNth]
  split <;> simp

theorem modifyNth_modifyNth {α : Type} (xs : List α) (i : Nat) (f g : α → α) :
    modifyNth (modifyNth xs i f) i g = modifyNth xs i (fun x => g (f x)) := by
  apply List.ext_getElem?
  intro j
  simp only [getElem?_modifyNth]
  split <;> simp [Option.map_map, Function.comp_def]

theorem map_modifyNth {α β : Type} (xs : List α) (i : Nat) (f : α → α) (proj : α → β)
    (h : ∀ x, proj (f x) = proj x) : (modifyNth xs i f).map proj = xs.map proj := by
  apply List.ext_getElem?
  intro j
  simp only [List.getElem?_map, getElem?_modifyNth]
  split
  · cases xs[j]? <;> simp [h]
  · rfl

theorem store_eq_setBuffer (st : Firmware) (p : Ptr) (i b : Nat) :
    store st p i b = setBuffer st p (fun buf => buf.set i b) := by
  cases p <;> rfl

theorem setBuffer_id (st : Firmware) (p : Ptr) : setBuffer st p (fun buf => buf) = st := by
  cases p <;> simp only [setBuffer] <;>
    first
    | (have h := modifyNth_id st.program; simp [h])
    | (have h := modifyNth_id st.profiles; simp [h])

theorem setBuffer_setBuffer (st : Firmware) (p : Ptr) (g h : List Nat → List Nat) :
    setBuffer (setBuffer st p g) p h = setBuffer st p (fun buf => h (g buf)) := by
  cases p <;> simp [setBuffer, modifyNth_modifyNth]

theorem storeLoop_assigned (p : Ptr) (n : Nat) :
    ∀ (tokens : List (List Char)) (i : Nat) (st : Firmware),
      storeLoop (some p) (some n) tokens i st =
        .ok (setBuffer st p (fun buf => writeBytes n (tokens.map hexByte) i buf)) := by
  intro tokens
  induction tokens with
  | nil =>
    intro i st
    simp only [storeLoop, List.map_nil, writeBytes]
    rw [setBuffer_id]
  | cons token tokens ih =>
    intro i st
    simp only [storeLoop, List.map_cons, writeBytes]
    by_cases hi : i < n
    · simp only [hi, if_true]
      rw [ih, store_eq_setBuffer, setBuffer_setBuffer]
    · simp only [hi, if_false]
      rw [ih]

theorem storeAndReturn_assigned (index : Nat) (p : Ptr) (n : Nat) (tokens : List (List Char))
    (st : Firmware) :
    storeAndReturn index (some p) (some n) tokens st =
      .ok ((index : Int), setBuffer st p (fun buf => writeBytes n (tokens.map hexByte) 0 buf)) := by
  simp [storeAndReturn, storeLoop_assigned]

/-- With `readLength = 0` nothing is stored, whatever `ptr` is. -/
theorem storeLoop_zero (ptr : Option Ptr) :
    ∀ (tokens : List (List Char)) (i : Nat) (st : Firmware),
      storeLoop ptr (some 0) tokens i st = .ok st := by
  intro tokens
  induction tokens with
  | nil => intro i st; rfl
  | cons token tokens ih => intro i st; simp [storeLoop, ih]

theorem getElem?_writeBytes (n : Nat) :
    ∀ (bs : List Nat) (i : Nat) (buf : List Nat) (j : Nat),
      (writeBytes n bs i buf)[j]? =
        if i ≤ j ∧ j < i + bs.length ∧ j < n ∧ j < buf.length then bs[j - i]? else buf[j]? := by
  intro bs
  induction bs with
  | nil =>
    intro i buf j
    have : ¬ (i ≤ j ∧ j < i + 0 ∧ j < n ∧ j < buf.length) := by omega
    simp only [writeBytes, List.length_nil]
    rw [if_neg this]
  | cons b bs ih =>
    intro i buf j
    rw [writeBytes, ih]
    by_cases hin : i < n
    · simp only [hin, if_true, List.length_set, List.length_cons, List.getElem?_set]
      by_cases hij : i = j
      · subst hij
        have h1 : ¬ (i + 1 ≤ i ∧ i < i + 1 + bs.length ∧ i < n ∧ i < buf.length) := by omega
        rw [if_neg h1]
        by_cases hb : i < buf.length
        · have h2 : i ≤ i ∧ i < i + (bs.length + 1) ∧ i < n ∧ i < buf.length := by omega
          simp [h2, hb]
        · have h2 : ¬ (i ≤ i ∧ i < i + (bs.length + 1) ∧ i < n ∧ i < buf.length) := by omega
          simp [h2, hb]
          omega
      · by_cases hc : i + 1 ≤ j ∧ j < i + 1 + bs.length ∧ j < n ∧ j < buf.length
        · have h2 : i ≤ j ∧ j < i + (bs.length + 1) ∧ j < n ∧ j < buf.length := by omega
          rw [if_pos hc, if_pos h2]
          have : j - i = (j - (i + 1)) + 1 := by omega
          rw [this, List.getElem?_cons_succ]
        · have h2 : ¬ (i ≤ j ∧ j < i + (bs.length + 1) ∧ j < n ∧ j < buf.length) := by omega
          rw [if_neg hc, if_neg h2]
          simp [hij]
    · simp only [hin, if_false, List.length_cons]
      have h1 : ¬ (i + 1 ≤ j ∧ j < i + 1 + bs.length ∧ j < n ∧ j < buf.length) := by omega
      have h2 : ¬ (i ≤ j ∧ j < i + (bs.length + 1) ∧ j < n ∧ j < buf.length) := by omega
      rw [if_neg h1, if_neg h2]

theorem length_writeBytes (n : Nat) :
    ∀ (bs : List Nat) (i : Nat) (buf : List Nat), (writeBytes n bs i buf).length = buf.length := by
  intro bs
  induction bs with
  | nil => intro i buf; rfl
  | cons b bs ih =>
    intro i buf
    rw [writeBytes, ih]
    split <;> simp


/-! ## readLineFromSerial, branch by branch -/

theorem readStringUntil_line (str rest : List Char) (h : '\n' ∉ str) :
    readStringUntil '\n' (str ++ '\n' :: rest) = (str, rest) := by
  have hp : ∀ a ∈ str, (fun c : Char => c != '\n') a = true := by
    intro a ha
    have : a ≠ '\n' := fun e => h (e ▸ ha)
    simpa using this
  unfold readStringUntil
  rw [List.takeWhile_append_of_pos hp, List.dropWhile_append_of_pos hp]
  simp [(List.takeWhile_eq_self_iff).mpr hp, (List.dropWhile_eq_nil_iff).mpr hp]

theorem readLineFromSerial_line (st : Firmware) (str rest : List Char)
    (hrx : st.rx = str ++ '\n' :: rest) (hnl : '\n' ∉ str) (hne : str ≠ []) :
    readLineFromSerial st =
      if equals str "cxn?".toList then
        .ok (-1, { st with rx := rest, tx := st.tx ++ "ad9910\n".toList })
      else if equals str "Done".toList then .ok (-2, { st with rx := rest })
      else readDataLine { st with rx := rest } (toCharArray str) := by
  have hlen : (str ++ '\n' :: rest).length > 0 := by simp
  have hstr : ¬ str.length = 0 := by simpa using hne
  unfold readLineFromSerial
  simp only [hrx, hlen, if_true, readStringUntil_line str rest hnl, hstr, if_false]

theorem cString_eq_self (s : List Char) (h : Char.ofNat 0 ∉ s) : cString s = s := by
  unfold cString
  rw [List.takeWhile_eq_self_iff]
  intro x hx
  have : x ≠ Char.ofNat 0 := fun e => h (e ▸ hx)
  simpa using this

theorem wire_chars (fields : List (List Char)) (hf : ∀ f ∈ fields, isField f = true) :
    '\n' ∉ wire fields ∧ Char.ofNat 0 ∉ wire fields := by
  constructor
  · intro h
    rcases mem_wire h with h | ⟨f, hfm, hc⟩
    · exact absurd h (by decide)
    · exact (((isField_iff f).mp (hf f hfm)).2 _ hc).2.1 rfl
  · intro h
    rcases mem_wire h with h | ⟨f, hfm, hc⟩
    · exact absurd h (by decide)
    · exact (((isField_iff f).mp (hf f hfm)).2 _ hc).2.2 rfl

theorem equals_wire (a b : List Char) (fields : List (List Char)) (lit : List Char)
    (hf : ∀ f ∈ a :: b :: fields, isField f = true) (hlit : ',' ∉ lit) :
    equals (wire (a :: b :: fields)) lit = false := by
  have ha : a ≠ [] := ((isField_iff a).mp (hf a (by simp))).1
  have hne : ¬ (wire (a :: b :: fields)).length = 0 := by
    simpa using wire_ne_nil a (b :: fields) ha
  unfold equals
  rw [if_neg hne, cString_eq_self _ (wire_chars _ hf).2]
  simp only [beq_eq_false_iff_ne, ne_eq]
  intro h
  exact hlit (h ▸ comma_mem_wire a b fields)

/-- A data line on the wire reaches the data branch with its fields as tokens. -/
theorem readLineFromSerial_wire (st : Firmware) (a b : List Char) (fields : List (List Char))
    (rest : List Char) (hrx : st.rx = wire (a :: b :: fields) ++ '\n' :: rest)
    (hf : ∀ f ∈ a :: b :: fields, isField f = true) :
    readLineFromSerial st = readDataLine { st with rx := rest } (wire (a :: b :: fields)) ∧
      strtokAll (wire (a :: b :: fields)) = a :: b :: fields := by
  have ha : a ≠ [] := ((isField_iff a).mp (hf a (by simp))).1
  constructor
  · rw [readLineFromSerial_line st _ rest hrx (wire_chars _ hf).1 (wire_ne_nil a _ ha),
      equals_wire a b fields _ hf (by decide), equals_wire a b fields _ hf (by decide)]
    simp [toCharArray, cString_eq_self _ (wire_chars _ hf).2]
  · exact strtokAll_wire _ (by simp) hf

theorem readDataLine_step (st : Firmware) (temp_char a b : List Char)
    (tokens : List (List Char)) (l : line)
    (htok : strtokAll temp_char = a :: b :: tokens) (hi : hexByte a < 12)
    (hl : st.program[hexByte a]? = some l) (ht : hexByte b ≤ 3) :
    readDataLine st temp_char =
      .ok ((hexByte a : Int),
        { st with program :=
            modifyNth st.program (hexByte a) (updateLine (hexByte b) (tokens.map hexByte)) }) := by
  unfold readDataLine
  rw [htok]
  simp only [hi, if_true, hl]
  have h4 : hexByte b = 0 ∨ hexByte b = 1 ∨ hexByte b = 2 ∨ hexByte b = 3 := by omega
  rcases h4 with h | h | h | h <;> rw [h] <;>
    simp [storeAndReturn_assigned, setBuffer, modifyNth_modifyNth, AMPL_LENGTH,
      POW_LENGTH, FTW_LENGTH, RAMP_RATE_LENGTH] <;> rfl

theorem readDataLine_invert (st : Firmware) (temp_char a b : List Char)
    (tokens : List (List Char)) (l : line)
    (htok : strtokAll temp_char = a :: b :: tokens) (hi : hexByte a < 12)
    (hl : st.program[hexByte a]? = some l) (ht : hexByte b = 4) :
    readDataLine st temp_char =
      .ok ((hexByte a : Int),
        { st with program :=
            modifyNth st.program (hexByte a) fun l =>
              { l with enabled := true, sweepInvert := invertOf tokens } }) := by
  unfold readDataLine
  rw [htok]
  simp only [hi, if_true, hl, ht]
  simp [storeAndReturn, storeLoop_zero, modifyNth_modifyNth, invertOf]

theorem readDataLine_unknown (st : Firmware) (temp_char a b : List Char) (l : line)
    (htok : strtokAll temp_char = [a, b]) (hi : hexByte a < 12)
    (hl : st.program[hexByte a]? = some l) (ht : 4 < hexByte b) :
    readDataLine st temp_char =
      .ok ((hexByte a : Int),
        { st with program :=
            modifyNth st.program (hexByte a) fun l => { l with enabled := true } }) := by
  unfold readDataLine
  rw [htok]
  simp only [hi, if_true, hl]
  split
  · omega
  · omega
  · omega
  · omega
  · omega
  · simp [storeAndReturn, storeLoop]

theorem readDataLine_unknown_payload (st : Firmware) (temp_char a b c : List Char)
    (tokens : List (List Char)) (l : line)
    (htok : strtokAll temp_char = a :: b :: c :: tokens) (hi : hexByte a < 12)
    (hl : st.program[hexByte a]? = some l) (ht : 4 < hexByte b) :
    readDataLine st temp_char = .error .uninitialised := by
  unfold readDataLine
  rw [htok]
  simp only [hi, if_true, hl]
  split
  · omega
  · omega
  · omega
  · omega
  · omega
  · simp [storeAndReturn, storeLoop]

theorem readDataLine_profile (st : Firmware) (temp_char a b : List Char)
    (tokens : List (List Char))
    (htok : strtokAll temp_char = a :: b :: tokens) (hi : 12 ≤ hexByte a) :
    readDataLine st temp_char =
      match st.profiles[hexByte a - 12]? with
      | none => .error .outOfBounds
      | some _ =>
        .ok ((hexByte a : Int),
          { st with profiles :=
              modifyNth st.profiles (hexByte a - 12) fun p =>
                { p with dataArray := writeBytes 8 (tokens.map hexByte) 0 p.dataArray } }) := by
  unfold readDataLine
  rw [htok]
  have : ¬ hexByte a < 12 := by omega
  simp only [this, if_false]
  cases st.profiles[hexByte a - 12]? <;>
    simp [storeAndReturn_assigned, setBuffer, AMPL_LENGTH, POW_LENGTH, FTW_LENGTH]


/-! ## Data lines for the program table -/

theorem targetBuffer_updateLine (t : Nat) (ht : t ≤ 3) (bytes : List Nat) (l : line) :
    targetBuffer t (updateLine t bytes l) =
        writeBytes (declaredLength t) bytes 0 (targetBuffer t l) ∧
      ∀ u, u ≤ 3 → u ≠ t → targetBuffer u (updateLine t bytes l) = targetBuffer u l := by
  have h4 : t = 0 ∨ t = 1 ∨ t = 2 ∨ t = 3 := by omega
  rcases h4 with h | h | h | h <;> subst h <;> refine ⟨rfl, ?_⟩ <;> intro u hu hne <;>
    · have h5 : u = 0 ∨ u = 1 ∨ u = 2 ∨ u = 3 := by omega
      rcases h5 with h | h | h | h <;> subst h <;> first | rfl | exact absurd rfl hne

theorem length_targetBuffer (st : Firmware) (halloc : Allocated st) (i t : Nat) (l : line)
    (hl : st.program[i]? = some l) (ht : t ≤ 3) :
    (targetBuffer t l).length = declaredLength t := by
  have hmem : l ∈ st.program := List.getElem?_mem hl
  have h := halloc.2.1 l hmem
  have h4 : t = 0 ∨ t = 1 ∨ t = 2 ∨ t = 3 := by omega
  rcases h4 with h' | h' | h' | h' <;> subst h' <;>
    simp [targetBuffer, declaredLength, h, AMPL_LENGTH, POW_LENGTH, FTW_LENGTH, RAMP_RATE_LENGTH]

theorem program_lookup (st : Firmware) (hlen : st.program.length = 12) (i : Nat) (hi : i < 12) :
    ∃ l, st.program[i]? = some l :=
  ⟨st.program[i], List.getElem?_eq_getElem (by omega)⟩

/-- C4: a data line for Step `i < 12` with record type `t ≤ 3` and payload
fields `payload` makes `readLineFromSerial` return `i`; afterwards the buffer
of Step `i` that `t` addresses still has its declared length, holds the decoded
payload bytes at the positions below both the payload length and the declared
length, and keeps its old bytes from position `payload.length` on. The other
three buffers of Step `i`, the other Steps and the profile table are as before. -/
theorem readLineFromSerial_payload (st : Firmware) (idx ty : List Char)
    (payload : List (List Char)) (rest : List Char) (halloc : Allocated st)
    (hrx : st.rx = wire (idx :: ty :: payload) ++ '\n' :: rest)
    (hf : ∀ f ∈ idx :: ty :: payload, isField f = true)
    (hi : hexByte idx < 12) (ht : hexByte ty ≤ 3) :
    ∃ st1 l l1, readLineFromSerial st = .ok ((hexByte idx : Int), st1) ∧
      st.program[hexByte idx]? = some l ∧ st1.program[hexByte idx]? = some l1 ∧
      (targetBuffer (hexByte ty) l1).length = declaredLength (hexByte ty) ∧
      (∀ j, j < payload.length → j < declaredLength (hexByte ty) →
        (targetBuffer (hexByte ty) l1)[j]? = (payload[j]?).map hexByte) ∧
      (∀ j, payload.length ≤ j →
        (targetBuffer (hexByte ty) l1)[j]? = (targetBuffer (hexByte ty) l)[j]?) ∧
      (∀ u, u ≤ 3 → u ≠ hexByte ty → targetBuffer u l1 = targetBuffer u l) ∧
      (∀ j, j ≠ hexByte idx → st1.program[j]? = st.program[j]?) ∧
      st1.profiles = st.profiles := by
  obtain ⟨l, hl⟩ := program_lookup st halloc.1 _ hi
  obtain ⟨hread, htok⟩ := readLineFromSerial_wire st idx ty payload rest hrx hf
  have hstep := readDataLine_step { st with rx := rest } _ idx ty payload l htok hi hl ht
  obtain ⟨hbuf, hother⟩ := targetBuffer_updateLine _ ht (payload.map hexByte) l
  have hlen := length_targetBuffer st halloc _ _ l hl ht
  refine ⟨_, l, updateLine (hexByte ty) (payload.map hexByte) l, hread.trans hstep, hl, ?_, ?_,
    ?_, ?_, hother, ?_, rfl⟩
  · simp [getElem?_modifyNth, hl]
  · rw [hbuf, length_writeBytes, hlen]
  · intro j hj1 hj2
    rw [hbuf, getElem?_writeBytes]
    have : 0 ≤ j ∧ j < 0 + (payload.map hexByte).length ∧ j < declaredLength (hexByte ty) ∧
        j < (targetBuffer (hexByte ty) l).length := by
      simp only [List.length_map]
      omega
    rw [if_pos this]
    simp
  · intro j hj
    rw [hbuf, getElem?_writeBytes]
    have : ¬ (0 ≤ j ∧ j < 0 + (payload.map hexByte).length ∧ j < declaredLength (hexByte ty) ∧
        j < (targetBuffer (hexByte ty) l).length) := by
      simp only [List.length_map]
      omega
    rw [if_neg this]
  · intro j hj
    simp [getElem?_modifyNth, Ne.symm hj]

theorem readLineFromSerial_payload_witness :
    Allocated (bootState "2,3,A,B,C,D,E\n".toList) ∧
      ∃ st1 l l1, readLineFromSerial (bootState "2,3,A,B,C,D,E\n".toList) = .ok ((2 : Int), st1) ∧
        (bootState "2,3,A,B,C,D,E\n".toList).program[2]? = some l ∧
        st1.program[2]? = some l1 ∧ l1.drRate = [10, 11, 12, 13] := by
  refine ⟨by decide, ?_⟩
  obtain ⟨st1, l, l1, h1, h2, h3, h4, h5, _⟩ :=
    readLineFromSerial_payload (bootState "2,3,A,B,C,D,E\n".toList) "2".toList "3".toList
      ["A".toList, "B".toList, "C".toList, "D".toList, "E".toList] [] (by decide) (by decide)
      (by decide) (by decide) (by decide)
  refine ⟨st1, l, l1, h1, h2, h3, ?_⟩
  have e : hexByte "3".toList = 3 := by decide
  rw [e] at h4 h5
  apply List.ext_getElem?
  intro j
  by_cases hj : j < 4
  · have := h5 j (by simp; omega) (by simpa [declaredLength, RAMP_RATE_LENGTH] using hj)
    simp only [targetBuffer] at this
    rw [this]
    have h4c : j = 0 ∨ j = 1 ∨ j = 2 ∨ j = 3 := by omega
    rcases h4c with h | h | h | h <;> subst h <;> decide
  · have hlen : l1.drRate.length = 4 := by simpa [targetBuffer, declaredLength, RAMP_RATE_LENGTH] using h4
    rw [List.getElem?_eq_none_iff.mpr (by omega), List.getElem?_eq_none_iff.mpr (by simp; omega)]


/-- C5: a data line for Step `i < 12` whose record type is one of 0..4, or that
has no payload field, makes `readLineFromSerial` return `i` and marks Step `i`
enabled. Type 0 sets the mode to 0, types 1, 2 and 3 set it to 1. Type 4 keeps
the mode and the four buffers and makes `sweepInvert` true exactly when there
is a first payload field and it decodes to 1. -/
theorem readLineFromSerial_mode (st : Firmware) (idx ty : List Char)
    (payload : List (List Char)) (rest : List Char) (hlen : st.program.length = 12)
    (hrx : st.rx = wire (idx :: ty :: payload) ++ '\n' :: rest)
    (hf : ∀ f ∈ idx :: ty :: payload, isField f = true)
    (hi : hexByte idx < 12) (ht : hexByte ty ≤ 4 ∨ payload = []) :
    ∃ st1 l l1, readLineFromSerial st = .ok ((hexByte idx : Int), st1) ∧
      st.program[hexByte idx]? = some l ∧ st1.program[hexByte idx]? = some l1 ∧
      l1.enabled = true ∧
      (hexByte ty = 0 → l1.mode = 0) ∧
      (1 ≤ hexByte ty → hexByte ty ≤ 3 → l1.mode = 1) ∧
      (hexByte ty = 4 →
        l1.mode = l.mode ∧ l1.single = l.single ∧ l1.drLimits = l.drLimits ∧
          l1.drStepSize = l.drStepSize ∧ l1.drRate = l.drRate ∧
          (l1.sweepInvert = true ↔ ∃ d ds, payload = d :: ds ∧ hexByte d = 1)) := by
  obtain ⟨l, hl⟩ := program_lookup st hlen _ hi
  obtain ⟨hread, htok⟩ := readLineFromSerial_wire st idx ty payload rest hrx hf
  by_cases ht3 : hexByte ty ≤ 3
  · have hstep := readDataLine_step { st with rx := rest } _ idx ty payload l htok hi hl ht3
    refine ⟨_, l, updateLine (hexByte ty) (payload.map hexByte) l, hread.trans hstep, hl, ?_, ?_,
      ?_, ?_, ?_⟩
    · simp [getElem?_modifyNth, hl]
    · have h4 : hexByte ty = 0 ∨ hexByte ty = 1 ∨ hexByte ty = 2 ∨ hexByte ty = 3 := by omega
      rcases h4 with h | h | h | h <;> rw [h] <;> rfl
    · intro h
      rw [h]
      rfl
    · intro h1 _
      have h4 : hexByte ty = 1 ∨ hexByte ty = 2 ∨ hexByte ty = 3 := by omega
      rcases h4 with h | h | h <;> rw [h] <;> rfl
    · intro h
      omega
  · by_cases ht4 : hexByte ty = 4
    · have hstep := readDataLine_invert { st with rx := rest } _ idx ty payload l htok hi hl ht4
      refine ⟨_, l, { l with enabled := true, sweepInvert := invertOf payload },
        hread.trans hstep, hl, ?_, rfl, ?_, ?_, ?_⟩
      · simp [getElem?_modifyNth, hl]
      · intro h
        omega
      · intro _ h
        omega
      · intro _
        refine ⟨rfl, rfl, rfl, rfl, rfl, ?_⟩
        cases payload with
        | nil => simp [invertOf]
        | cons d ds => simp [invertOf]
    · have hp : payload = [] := by
        rcases ht with h | h
        · omega
        · exact h
      subst hp
      have hstep := readDataLine_unknown { st with rx := rest } _ idx ty l htok hi hl (by omega)
      refine ⟨_, l, { l with enabled := true }, hread.trans hstep, hl, ?_, rfl, ?_, ?_, ?_⟩
      · simp [getElem?_modifyNth, hl]
      · intro h
        omega
      · intro _ h
        omega
      · intro h
        omega

theorem readLineFromSerial_mode_witness :
    (bootState "1,4,01\n".toList).program.length = 12 ∧
      ∃ st1 l1, readLineFromSerial (bootState "1,4,01\n".toList) = .ok ((1 : Int), st1) ∧
        st1.program[1]? = some l1 ∧ l1.enabled = true ∧ l1.sweepInvert = true := by
  refine ⟨by decide, ?_⟩
  obtain ⟨st1, l, l1, h1, _, h3, h4, _, _, h7⟩ :=
    readLineFromSerial_mode (bootState "1,4,01\n".toList) "1".toList "4".toList ["01".toList] []
      (by decide) (by decide) (by decide) (by decide) (Or.inl (by decide))
  exact ⟨st1, l1, h1, h3, h4, (h7 (by decide)).2.2.2.2.2.mpr ⟨_, _, rfl, by decide⟩⟩

/-! ## Data lines for the profile table -/

/-- C6: a data line whose slot index decodes to `s` with `12 ≤ s ≤ 19` makes
`readLineFromSerial` return `s`, whatever the record-type field is. Afterwards
the payload of Profile `s - 12` still has 8 bytes, holds the decoded payload
bytes at the positions below both the payload length and 8, and keeps its old
bytes from position `payload.length` on; the other Profiles, all channel fields
and the program table are as before. -/
theorem readLineFromSerial_profile (st : Firmware) (idx ty : List Char)
    (payload : List (List Char)) (rest : List Char) (halloc : Allocated st)
    (hrx : st.rx = wire (idx :: ty :: payload) ++ '\n' :: rest)
    (hf : ∀ f ∈ idx :: ty :: payload, isField f = true)
    (hlo : 12 ≤ hexByte idx) (hhi : hexByte idx ≤ 19) :
    ∃ st1 p p1, readLineFromSerial st = .ok ((hexByte idx : Int), st1) ∧
      st.profiles[hexByte idx - 12]? = some p ∧ st1.profiles[hexByte idx - 12]? = some p1 ∧
      p1.dataArray.length = 8 ∧
      (∀ j, j < payload.length → j < 8 → p1.dataArray[j]? = (payload[j]?).map hexByte) ∧
      (∀ j, payload.length ≤ j → p1.dataArray[j]? = p.dataArray[j]?) ∧
      (∀ k, k ≠ hexByte idx - 12 → st1.profiles[k]? = st.profiles[k]?) ∧
      st1.profiles.map profile.channel = st.profiles.map profile.channel ∧
      st1.program = st.program := by
  have hk : hexByte idx - 12 < st.profiles.length := by
    have := halloc.2.2.1
    omega
  have hp : st.profiles[hexByte idx - 12]? = some st.profiles[hexByte idx - 12] :=
    List.getElem?_eq_getElem hk
  have hplen : (st.profiles[hexByte idx - 12]).dataArray.length = 8 :=
    halloc.2.2.2 _ (List.getElem?_mem hp)
  obtain ⟨hread, htok⟩ := readLineFromSerial_wire st idx ty payload rest hrx hf
  have hstep := readDataLine_profile { st with rx := rest } _ idx ty payload htok hlo
  simp only [hp] at hstep
  refine ⟨_, _, { st.profiles[hexByte idx - 12] with
      dataArray := writeBytes 8 (payload.map hexByte) 0 (st.profiles[hexByte idx - 12]).dataArray },
    hread.trans hstep, hp, ?_, ?_, ?_, ?_, ?_, ?_, rfl⟩
  · simp [getElem?_modifyNth, hp]
  · simp [length_writeBytes, hplen]
  · intro j hj1 hj2
    simp only [getElem?_writeBytes]
    have : 0 ≤ j ∧ j < 0 + (payload.map hexByte).length ∧ j < 8 ∧
        j < (st.profiles[hexByte idx - 12]).dataArray.length := by
      simp only [List.length_map]
      omega
    rw [if_pos this]
    simp
  · intro j hj
    simp only [getElem?_writeBytes]
    have : ¬ (0 ≤ j ∧ j < 0 + (payload.map hexByte).length ∧ j < 8 ∧
        j < (st.profiles[hexByte idx - 12]).dataArray.length) := by
      simp only [List.length_map]
      omega
    rw [if_neg this]
  · intro k hk
    simp [getElem?_modifyNth, Ne.symm hk]
  · exact map_modifyNth _ _ _ _ (fun _ => rfl)

theorem readLineFromSerial_profile_witness :
    Allocated (bootState "F,7,1,2,3\n".toList) ∧
      ∃ st1 p1, readLineFromSerial (bootState "F,7,1,2,3\n".toList) = .ok ((15 : Int), st1) ∧
        st1.profiles[3]? = some p1 ∧ p1.dataArray.take 3 = [1, 2, 3] ∧
        st1.program = (bootState "F,7,1,2,3\n".toList).program := by
  refine ⟨by decide, ?_⟩
  obtain ⟨st1, p, p1, h1, _, h3, h4, h5, _, _, _, h9⟩ :=
    readLineFromSerial_profile (bootState "F,7,1,2,3\n".toList) "F".toList "7".toList
      ["1".toList, "2".toList, "3".toList] [] (by decide) (by decide) (by decide) (by decide)
      (by decide)
  refine ⟨st1, p1, h1, h3, ?_, h9⟩
  apply List.ext_getElem?
  intro j
  by_cases hj : j < 3
  · rw [List.getElem?_take_of_lt hj, h5 j (by simpa using hj) (by omega)]
    have h3c : j = 0 ∨ j = 1 ∨ j = 2 := by omega
    rcases h3c with h | h | h <;> subst h <;> decide
  · rw [List.getElem?_eq_none_iff.mpr (by simp; omega),
      List.getElem?_eq_none_iff.mpr (by simp; omega)]


/-! ## zeroProfiles -/

theorem zeroBufferLoop_eq (buf : List Nat) (h : buf.length = 8) :
    zeroBufferLoop (2 * FTW_LENGTH) 0 buf = zero_reg := by
  rcases buf with _ | ⟨a0, _ | ⟨a1, _ | ⟨a2, _ | ⟨a3, _ | ⟨a4, _ | ⟨a5, _ | ⟨a6, _ | ⟨a7, _ | ⟨a8, t⟩⟩⟩⟩⟩⟩⟩⟩⟩ <;>
    simp at h
  rfl

theorem getElem?_zeroProfilesLoop (n : Nat) : ∀ (i : Nat) (profiles : List profile) (j : Nat),
    (zeroProfilesLoop n i profiles)[j]? =
      if i ≤ j ∧ j < i + n then
        profiles[j]?.map
          (fun p => { p with dataArray := zeroBufferLoop (2 * FTW_LENGTH) 0 p.dataArray })
      else profiles[j]? := by
  induction n with
  | zero =>
    intro i profiles j
    have : ¬ (i ≤ j ∧ j < i) := by omega
    simp [zeroProfilesLoop, this]
  | succ n ih =>
    intro i profiles j
    rw [zeroProfilesLoop, ih, getElem?_modifyNth]
    by_cases h1 : i = j
    · subst h1; simp
    · by_cases h2 : i + 1 ≤ j
      · have h3 : i ≤ j := by omega
        have h4 : (j < i + 1 + n) = (j < i + (n + 1)) := by
          apply propext; constructor <;> intro h <;> omega
        simp [h1, h2, h3, h4]
      · have h3 : ¬ i ≤ j := by omega
        simp [h1, h2, h3]

/-- On allocated tables `zeroProfiles` puts `zero_reg` into every profile and
changes nothing else. -/
theorem zeroProfiles_eq (st : Firmware) (halloc : Allocated st) :
    zeroProfiles st =
      { st with profiles := st.profiles.map fun p => { p with dataArray := zero_reg } } := by
  unfold zeroProfiles
  congr 1
  apply List.ext_getElem?
  intro j
  simp only [NUM_PROFILES, getElem?_zeroProfilesLoop, List.getElem?_map]
  by_cases hj : j < st.profiles.length
  · have h1 : 0 ≤ j ∧ j < 0 + 8 := by
      have := halloc.2.2.1
      omega
    have hp : st.profiles[j]? = some st.profiles[j] := List.getElem?_eq_getElem hj
    rw [if_pos h1, hp]
    simp [zeroBufferLoop_eq _ (halloc.2.2.2 _ (List.getElem?_mem hp))]
  · have hp : st.profiles[j]? = none := List.getElem?_eq_none_iff.mpr (by omega)
    simp [hp]

theorem allocated_zeroProfiles (st : Firmware) (halloc : Allocated st) :
    Allocated (zeroProfiles st) := by
  rw [zeroProfiles_eq st halloc]
  refine ⟨halloc.1, halloc.2.1, by simpa using halloc.2.2.1, ?_⟩
  intro p hp
  simp only [List.mem_map] at hp
  obtain ⟨q, _, rfl⟩ := hp
  rfl


/-! ## The profile upload scenario -/

/-- C7, as stated: the index field `15` is read as hexadecimal and decodes to
21, so the line `15,0,3F,FF,00,00,20,00,00,00` addresses `profiles[9]`, outside
the table of 8 Profiles, and does not set Profile 3; and the index field `12`
decodes to 18, so that line addresses Profile 6 and not Profile 0. -/
theorem profile_upload_decimal_index :
    hexByte "15".toList = 21 ∧
      readLineFromSerial
          (zeroProfiles (bootState "15,0,3F,FF,00,00,20,00,00,00\nDone\n".toList)) =
        .error .outOfBounds ∧
      (readLineFromSerial
          (zeroProfiles (bootState "12,0,3F,FF,00,00,20,00,00,00\nDone\n".toList))).map
          (fun r => (r.1, r.2.profiles.map profile.dataArray)) =
        .ok (18, [zero_reg, zero_reg, zero_reg, zero_reg, zero_reg, zero_reg,
          [0x3F, 0xFF, 0, 0, 0x20, 0, 0, 0], zero_reg]) := by
  refine ⟨by decide, by decide, by decide⟩

theorem hexField_profile (k : Nat) (hk : k < 8) :
    isField (hexField (12 + k)) = true ∧ hexByte (hexField (12 + k)) = 12 + k := by
  have h8 : k = 0 ∨ k = 1 ∨ k = 2 ∨ k = 3 ∨ k = 4 ∨ k = 5 ∨ k = 6 ∨ k = 7 := by omega
  rcases h8 with h | h | h | h | h | h | h | h <;> subst h <;> exact ⟨by decide, by decide⟩

theorem receive_profiles (st : Firmware) (text : List Char) :
    (receive st text).profiles = st.profiles :=
  rfl

theorem readLineFromSerial_cxn (st : Firmware) (rest : List Char)
    (hrx : st.rx = "cxn?".toList ++ '\n' :: rest) :
    readLineFromSerial st =
      .ok (-1, { st with rx := rest, tx := st.tx ++ "ad9910\n".toList }) := by
  rw [readLineFromSerial_line st "cxn?".toList rest hrx (by decide) (by decide)]
  have e1 : equals "cxn?".toList "cxn?".toList = true := by decide
  rw [e1]
  rfl

theorem readLineFromSerial_Done (st : Firmware) (rest : List Char)
    (hrx : st.rx = "Done".toList ++ '\n' :: rest) :
    readLineFromSerial st = .ok (-2, { st with rx := rest }) := by
  rw [readLineFromSerial_line st "Done".toList rest hrx (by decide) (by decide)]
  have e1 : equals "Done".toList "cxn?".toList = false := by decide
  have e2 : equals "Done".toList "Done".toList = true := by decide
  rw [e1, e2]
  rfl

/-- A data line for the profile table, with the state it leaves. -/
theorem readLineFromSerial_profile_eq (st : Firmware) (idx ty : List Char)
    (payload : List (List Char)) (rest : List Char) (p : profile)
    (hrx : st.rx = wire (idx :: ty :: payload) ++ '\n' :: rest)
    (hf : ∀ f ∈ idx :: ty :: payload, isField f = true)
    (hlo : 12 ≤ hexByte idx) (hp : st.profiles[hexByte idx - 12]? = some p) :
    readLineFromSerial st =
      .ok ((hexByte idx : Int),
        { st with
          profiles := modifyNth st.profiles (hexByte idx - 12) fun p =>
            { p with dataArray := writeBytes 8 (payload.map hexByte) 0 p.dataArray },
          rx := rest }) := by
  obtain ⟨hread, htok⟩ := readLineFromSerial_wire st idx ty payload rest hrx hf
  have hstep := readDataLine_profile { st with rx := rest } _ idx ty payload htok hlo
  simp only [hp] at hstep
  exact hread.trans hstep

/-- C7, amended: on allocated tables, after `zeroProfiles` the line
`F,0,3F,FF,00,00,20,00,00,00` followed by `Done` is answered with the return
codes 15 and -2 and leaves Profile 3 with the payload 3F FF 00 00 20 00 00 00
and the other seven Profiles with `zero_reg`; and for every `k < 8` a data line
whose index field writes `12 + k` in hexadecimal (`C`, `D`, `E`, `F`, `10`,
`11`, `12`, `13`) stores its payload in Profile `k` and leaves the other
Profiles as they are. -/
theorem profile_upload_hex_index (st : Firmware) (halloc : Allocated st) :
    (∃ st1 st2,
        readLineFromSerial
            (receive (zeroProfiles st) "F,0,3F,FF,00,00,20,00,00,00\nDone\n".toList) =
          .ok (15, st1) ∧
        readLineFromSerial st1 = .ok (-2, st2) ∧
        st2.profiles.map profile.dataArray =
          [zero_reg, zero_reg, zero_reg, [0x3F, 0xFF, 0, 0, 0x20, 0, 0, 0], zero_reg, zero_reg,
            zero_reg, zero_reg]) ∧
      ∀ k, k < 8 → ∀ (ty : List Char) (payload : List (List Char)) (rest : List Char),
        (∀ f ∈ ty :: payload, isField f = true) →
        ∃ st1,
          readLineFromSerial
              (receive st (wire (hexField (12 + k) :: ty :: payload) ++ '\n' :: rest)) =
            .ok (((12 + k : Nat) : Int), st1) ∧
          (st1.profiles[k]?).map profile.dataArray =
            (st.profiles[k]?).map (fun p => writeBytes 8 (payload.map hexByte) 0 p.dataArray) ∧
          ∀ j, j ≠ k → st1.profiles[j]? = st.profiles[j]? := by
  constructor
  · have hlen := halloc.2.2.1
    have hz : (zeroProfiles st).profiles =
        st.profiles.map fun p => { p with dataArray := zero_reg } := by
      rw [zeroProfiles_eq st halloc]
    rcases hps : st.profiles with _ | ⟨p0, _ | ⟨p1, _ | ⟨p2, _ | ⟨p3, _ | ⟨p4, _ | ⟨p5, _ | ⟨p6, _ | ⟨p7, _ | ⟨p8, t⟩⟩⟩⟩⟩⟩⟩⟩⟩ <;>
      simp [hps] at hlen
    rw [hps] at hz
    have hf : ∀ f ∈ "F".toList :: "0".toList ::
        ["3F".toList, "FF".toList, "00".toList, "00".toList, "20".toList, "00".toList,
          "00".toList, "00".toList], isField f = true := by decide
    have hrx : (receive (zeroProfiles st) "F,0,3F,FF,00,00,20,00,00,00\nDone\n".toList).rx =
        wire ("F".toList :: "0".toList ::
          ["3F".toList, "FF".toList, "00".toList, "00".toList, "20".toList, "00".toList,
            "00".toList, "00".toList]) ++ '\n' :: "Done\n".toList := by
      show "F,0,3F,FF,00,00,20,00,00,00\nDone\n".toList = _
      decide
    have e15 : hexByte "F".toList = 15 := by decide
    have ebytes : List.map hexByte ["3F".toList, "FF".toList, "00".toList, "00".toList,
        "20".toList, "00".toList, "00".toList, "00".toList] = [0x3F, 0xFF, 0, 0, 0x20, 0, 0, 0] := by
      decide
    have hp : (receive (zeroProfiles st)
        "F,0,3F,FF,00,00,20,00,00,00\nDone\n".toList).profiles[hexByte "F".toList - 12]? =
        some { p3 with dataArray := zero_reg } := by
      rw [e15, receive_profiles, hz]
      rfl
    have hstep := readLineFromSerial_profile_eq _ _ _ _ _ _ hrx hf (by rw [e15]; omega) hp
    rw [e15, ebytes] at hstep
    refine ⟨_, _, hstep, readLineFromSerial_Done _ [] rfl, ?_⟩
    simp only [receive_profiles, hz]
    simp [modifyNth, writeBytes, zero_reg]
  · intro k hk ty payload rest hf
    obtain ⟨hfield, hval⟩ := hexField_profile k hk
    have hf2 : ∀ f ∈ hexField (12 + k) :: ty :: payload, isField f = true := by
      intro f hfm
      rcases List.mem_cons.mp hfm with h | h
      · rw [h]; exact hfield
      · exact hf f h
    obtain ⟨hread, htok⟩ := readLineFromSerial_wire
      (receive st (wire (hexField (12 + k) :: ty :: payload) ++ '\n' :: rest))
      (hexField (12 + k)) ty payload rest rfl hf2
    have hstep := readDataLine_profile
      { receive st (wire (hexField (12 + k) :: ty :: payload) ++ '\n' :: rest) with rx := rest }
      _ _ _ _ htok (by omega)
    have hkl : k < st.profiles.length := by
      have := halloc.2.2.1
      omega
    have hp : st.profiles[k]? = some st.profiles[k] := List.getElem?_eq_getElem hkl
    have hsub : hexByte (hexField (12 + k)) - 12 = k := by omega
    rw [hsub] at hstep
    simp only [receive, hp] at hstep
    rw [hval] at hstep
    refine ⟨_, hread.trans hstep, ?_, ?_⟩
    · simp [getElem?_modifyNth, hp]
    · intro j hj
      simp [getElem?_modifyNth, Ne.symm hj]

theorem profile_upload_hex_index_witness :
    Allocated (bootState []) ∧
      ∃ st1,
        readLineFromSerial
            (receive (zeroProfiles (bootState []))
              "F,0,3F,FF,00,00,20,00,00,00\nDone\n".toList) =
          .ok (15, st1) ∧
        (st1.profiles[3]?).map profile.dataArray = some [0x3F, 0xFF, 0, 0, 0x20, 0, 0, 0] := by
  refine ⟨by decide, ?_⟩
  obtain ⟨⟨st1, st2, h1, _, _⟩, _⟩ := profile_upload_hex_index (bootState []) (by decide)
  refine ⟨st1, h1, ?_⟩
  have h2 : readLineFromSerial
      (receive (zeroProfiles (bootState []))
        "F,0,3F,FF,00,00,20,00,00,00\nDone\n".toList) =
      .ok (15, { zeroProfiles (bootState []) with
        profiles := modifyNth (zeroProfiles (bootState [])).profiles 3
          (fun p => { p with dataArray := [0x3F, 0xFF, 0, 0, 0x20, 0, 0, 0] }),
        rx := "Done\n".toList }) := by decide
  rw [h2] at h1
  cases h1
  decide


/-! ## Lines that are not data lines -/

/-- C9: whatever the tables hold, the line `cxn?` makes `readLineFromSerial`
print `ad9910\n` and return -1, and the line `Done` makes it print nothing and
return -2; in both cases the state after differs from the state before only in
the serial port. -/
theorem readLineFromSerial_handshake_terminator (st : Firmware) (rest : List Char) :
    readLineFromSerial (receive st ("cxn?\n".toList ++ rest)) =
        .ok (-1, { program := st.program, profiles := st.profiles, rx := rest,
                   tx := st.tx ++ "ad9910\n".toList }) ∧
      readLineFromSerial (receive st ("Done\n".toList ++ rest)) =
        .ok (-2, { program := st.program, profiles := st.profiles, rx := rest, tx := st.tx }) :=
  ⟨readLineFromSerial_cxn _ rest rfl, readLineFromSerial_Done _ rest rfl⟩

/-! ## Return codes and enabled flags, for every input -/

theorem map_modifyNth_enable (xs : List line) (i : Nat) (f : line → line)
    (h : ∀ x, (f x).enabled = true) :
    (modifyNth xs i f).map line.enabled = (xs.map line.enabled).set i true := by
  apply List.ext_getElem?
  intro j
  simp only [List.getElem?_map, getElem?_modifyNth, List.getElem?_set, List.length_map]
  by_cases hij : i = j
  · subst hij
    by_cases hl : i < xs.length
    · simp [hl, List.getElem?_eq_getElem hl, h]
    · simp [hl, List.getElem?_eq_none_iff.mpr (Nat.le_of_not_lt hl)]
  · simp [hij]

theorem readDataLine_ok (st : Firmware) (temp_char : List Char) (r : Int) (st1 : Firmware)
    (h : readDataLine st temp_char = .ok (r, st1)) :
    ∃ index : Nat, r = (index : Int) ∧
      st1.program.map line.enabled =
        if index < 12 then (st.program.map line.enabled).set index true
        else st.program.map line.enabled := by
  rcases htok : strtokAll temp_char with _ | ⟨a, _ | ⟨b, tokens⟩⟩
  · simp [readDataLine, htok] at h
  · simp [readDataLine, htok] at h
  · by_cases hi : hexByte a < 12
    · cases hl : st.program[hexByte a]? with
      | none => simp [readDataLine, htok, hi, hl] at h
      | some l =>
        by_cases ht : hexByte b ≤ 3
        · rw [readDataLine_step st temp_char a b tokens l htok hi hl ht] at h
          simp only [Except.ok.injEq, Prod.mk.injEq] at h
          obtain ⟨hr, hst⟩ := h
          subst hst
          refine ⟨hexByte a, hr.symm, ?_⟩
          rw [if_pos hi]
          apply map_modifyNth_enable
          intro x
          have h4 : hexByte b = 0 ∨ hexByte b = 1 ∨ hexByte b = 2 ∨ hexByte b = 3 := by omega
          rcases h4 with h | h | h | h <;> rw [h] <;> rfl
        · by_cases ht4 : hexByte b = 4
          · rw [readDataLine_invert st temp_char a b tokens l htok hi hl ht4] at h
            simp only [Except.ok.injEq, Prod.mk.injEq] at h
            obtain ⟨hr, hst⟩ := h
            subst hst
            refine ⟨hexByte a, hr.symm, ?_⟩
            rw [if_pos hi]
            exact map_modifyNth_enable _ _ _ (fun _ => rfl)
          · cases tokens with
            | nil =>
              rw [readDataLine_unknown st temp_char a b l htok hi hl (by omega)] at h
              simp only [Except.ok.injEq, Prod.mk.injEq] at h
              obtain ⟨hr, hst⟩ := h
              subst hst
              refine ⟨hexByte a, hr.symm, ?_⟩
              rw [if_pos hi]
              exact map_modifyNth_enable _ _ _ (fun _ => rfl)
            | cons c tokens =>
              rw [readDataLine_unknown_payload st temp_char a b c tokens l htok hi hl
                (by omega)] at h
              simp at h
    · rw [readDataLine_profile st temp_char a b tokens htok (by omega)] at h
      cases hp : st.profiles[hexByte a - 12]? with
      | none => simp [hp] at h
      | some p =>
        simp only [hp, Except.ok.injEq, Prod.mk.injEq] at h
        obtain ⟨hr, hst⟩ := h
        subst hst
        refine ⟨hexByte a, hr.symm, ?_⟩
        rw [if_neg hi]

theorem readLineFromSerial_ok (st : Firmware) (r : Int) (st1 : Firmware)
    (h : readLineFromSerial st = .ok (r, st1)) :
    (r = -1 ∨ r = -2 ∨ r = -4) ∧ st1.program.map line.enabled = st.program.map line.enabled ∨
      ∃ index : Nat, r = (index : Int) ∧
        st1.program.map line.enabled =
          if index < 12 then (st.program.map line.enabled).set index true
          else st.program.map line.enabled := by
  unfold readLineFromSerial at h
  by_cases hrx : st.rx.length > 0
  · simp only [hrx, if_true] at h
    generalize (if (readStringUntil '\n' st.rx).1.length = 0 then
      readStringUntil '\n' (readStringUntil '\n' st.rx).2 else readStringUntil '\n' st.rx) = read
      at h
    by_cases he1 : equals read.1 "cxn?".toList = true
    · rw [if_pos he1] at h
      simp only [Except.ok.injEq, Prod.mk.injEq] at h
      obtain ⟨hr, hst⟩ := h
      subst hst
      exact Or.inl ⟨Or.inl hr.symm, rfl⟩
    · by_cases he2 : equals read.1 "Done".toList = true
      · rw [if_neg he1, if_pos he2] at h
        simp only [Except.ok.injEq, Prod.mk.injEq] at h
        obtain ⟨hr, hst⟩ := h
        subst hst
        exact Or.inl ⟨Or.inr (Or.inl hr.symm), rfl⟩
      · rw [if_neg he1, if_neg he2] at h
        exact Or.inr (readDataLine_ok { st with rx := read.2 } _ _ _ h)
  · simp only [hrx, if_false, Except.ok.injEq, Prod.mk.injEq] at h
    obtain ⟨hr, hst⟩ := h
    subst hst
    exact Or.inl ⟨Or.inr (Or.inr hr.symm), rfl⟩

/-- C10: no path of `readLineFromSerial` returns -3. When the first read and the
retry both give the empty string, the function goes on to the data branch,
where the first `strtok` returns `NULL` and `strtol` is applied to it. With
nothing in the receiver it returns -4 and leaves the state as it is. -/
theorem readLineFromSerial_no_data (st : Firmware) (rest : List Char) :
    readLineFromSerial (receive st ('\n' :: '\n' :: rest)) = .error .nullToken ∧
      readLineFromSerial (receive st ['\n']) = .error .nullToken ∧
      (∀ st1, readLineFromSerial st ≠ .ok (-3, st1)) ∧
      readLineFromSerial (receive st []) = .ok (-4, receive st []) := by
  refine ⟨rfl, rfl, ?_, rfl⟩
  intro st1 h
  rcases readLineFromSerial_ok st _ st1 h with ⟨h1, _⟩ | ⟨index, h1, _⟩ <;> omega


/-! ## Lines outside the protocol -/

/-- C8, as stated: on the booted tables Step 0 is disabled; the line `0,5`,
whose record type 5 is none of 0..4, makes `readLineFromSerial` return 0 and
leaves Step 0 enabled. The line `14,0,1` has the slot index 20; it is not
skipped either but addresses `profiles[8]`, outside the table. -/
theorem unknown_type_enables_step :
    ((bootState "0,5\n".toList).program.map line.enabled)[0]? = some false ∧
      hexByte "5".toList = 5 ∧
      (readLineFromSerial (bootState "0,5\n".toList)).map
          (fun r => (r.1, (r.2.program.map line.enabled)[0]?)) =
        .ok (0, some true) ∧
      hexByte "14".toList = 20 ∧
      readLineFromSerial (bootState "14,0,1\n".toList) = .error .outOfBounds := by
  refine ⟨by decide, by decide, by decide, by decide, by decide⟩

/-- C8, amended: a data line for Step `i < 12` whose record type is none of
0..4 and that has no payload field is not skipped: `readLineFromSerial` returns
`i` and marks Step `i` enabled; the other fields of Step `i`, the other Steps
and the profile table are as before. -/
theorem readLineFromSerial_unknown_type (st : Firmware) (idx ty rest : List Char)
    (hlen : st.program.length = 12)
    (hrx : st.rx = wire [idx, ty] ++ '\n' :: rest)
    (hf : ∀ f ∈ [idx, ty], isField f = true)
    (hi : hexByte idx < 12) (ht : 4 < hexByte ty) :
    ∃ st1 l, readLineFromSerial st = .ok ((hexByte idx : Int), st1) ∧
      st.program[hexByte idx]? = some l ∧
      st1.program[hexByte idx]? = some { l with enabled := true } ∧
      (∀ j, j ≠ hexByte idx → st1.program[j]? = st.program[j]?) ∧
      st1.profiles = st.profiles := by
  obtain ⟨l, hl⟩ := program_lookup st hlen _ hi
  obtain ⟨hread, htok⟩ := readLineFromSerial_wire st idx ty [] rest hrx hf
  have hstep := readDataLine_unknown { st with rx := rest } _ idx ty l htok hi hl ht
  refine ⟨_, l, hread.trans hstep, hl, ?_, ?_, rfl⟩
  · simp [getElem?_modifyNth, hl]
  · intro j hj
    simp [getElem?_modifyNth, Ne.symm hj]

theorem readLineFromSerial_unknown_type_witness :
    (bootState "0,5\n".toList).program.length = 12 ∧
      ∃ st1, readLineFromSerial (bootState "0,5\n".toList) = .ok ((0 : Int), st1) ∧
        st1.program[0]? = some { blankLine with enabled := true } := by
  refine ⟨by decide, ?_⟩
  obtain ⟨st1, l, h1, h2, h3, _⟩ :=
    readLineFromSerial_unknown_type (bootState "0,5\n".toList) "0".toList "5".toList []
      (by decide) (by decide) (by decide) (by decide) (by decide)
  have hl : l = blankLine := by
    have h2b : (bootState "0,5\n".toList).program[0]? = some l := h2
    have h0 : (bootState "0,5\n".toList).program[0]? = some blankLine := by decide
    rw [h0] at h2b
    exact (Option.some.inj h2b).symm
  subst hl
  exact ⟨st1, h1, h3⟩

/-! ## An upload and the enabled flags -/

theorem length_flags_readLineFromSerial (st : Firmware) (r : Int) (st1 : Firmware)
    (h : readLineFromSerial st = .ok (r, st1)) : st1.program.length = st.program.length := by
  have hm : (st1.program.map line.enabled).length = (st.program.map line.enabled).length := by
    rcases readLineFromSerial_ok st r st1 h with ⟨_, h2⟩ | ⟨index, _, h2⟩
    · rw [h2]
    · rw [h2]
      split <;> simp
  simpa using hm

theorem flag_readLineFromSerial (st : Firmware) (r : Int) (st1 : Firmware)
    (h : readLineFromSerial st = .ok (r, st1)) (hlen : st.program.length = 12) (i : Nat)
    (hi : i < 12) :
    (st1.program.map line.enabled)[i]? = some true ↔
      (st.program.map line.enabled)[i]? = some true ∨ r = (i : Int) := by
  rcases readLineFromSerial_ok st r st1 h with ⟨h1, h2⟩ | ⟨index, h1, h2⟩
  · rw [h2]
    constructor
    · exact Or.inl
    · rintro (h3 | h3)
      · exact h3
      · omega
  · rw [h2]
    by_cases hx : index < 12
    · rw [if_pos hx, List.getElem?_set]
      by_cases he : index = i
      · subst he
        have : index < st.program.length := by omega
        simp [this, h1]
      · have : ¬ r = (i : Int) := by omega
        simp [he, this]
    · rw [if_neg hx]
      have : ¬ r = (i : Int) := by omega
      simp [this]

theorem readLines_flags : ∀ (n : Nat) (st : Firmware) (rs : List Int) (st1 : Firmware),
    readLines n st = .ok (rs, st1) → st.program.length = 12 → ∀ i : Nat, i < 12 →
      ((st1.program.map line.enabled)[i]? = some true ↔
        (st.program.map line.enabled)[i]? = some true ∨ (i : Int) ∈ rs) := by
  intro n
  induction n with
  | zero =>
    intro st rs st1 h _ i _
    simp only [readLines, Except.ok.injEq, Prod.mk.injEq] at h
    obtain ⟨hr, hst⟩ := h
    subst hr hst
    simp
  | succ n ih =>
    intro st rs st1 h hlen i hi
    rw [readLines] at h
    cases h1 : readLineFromSerial st with
    | error e => simp [h1] at h
    | ok v =>
      obtain ⟨r, st2⟩ := v
      simp only [h1] at h
      cases h2 : readLines n st2 with
      | error e => simp [h2] at h
      | ok w =>
        obtain ⟨rs2, st3⟩ := w
        simp only [h2, Except.ok.injEq, Prod.mk.injEq] at h
        obtain ⟨hr, hst⟩ := h
        subst hr hst
        have hlen2 : st2.program.length = 12 := by
          rw [length_flags_readLineFromSerial st r st2 h1, hlen]
        rw [ih st2 rs2 st3 h2 hlen2 i hi, flag_readLineFromSerial st r st2 h1 hlen i hi]
        simp only [List.mem_cons]
        constructor
        · rintro ((h3 | h3) | h3)
          · exact Or.inl h3
          · exact Or.inr (Or.inl h3.symm)
          · exact Or.inr (Or.inr h3)
        · rintro (h3 | h3 | h3)
          · exact Or.inl (Or.inl h3)
          · exact Or.inl (Or.inr h3.symm)
          · exact Or.inr h3

/-- C3, as stated: after `disableLines`, the upload of the single data line
`5,0` leaves Step 5 enabled and Steps 0 to 4 disabled. -/
theorem upload_enables_step_five_only :
    (readLines 1 (disableLines (bootState "5,0\n".toList))).map
        (fun r => (r.1, r.2.program.map line.enabled)) =
      .ok ([5], [false, false, false, false, false, true, false, false, false, false, false,
        false]) := by
  decide

/-- C3, amended: after `disableLines` and any number of calls of
`readLineFromSerial`, Step `i` is enabled exactly when one of the calls returned
the slot index `i`. So when the returned slot indices below 12 are closed
downwards, an enabled Step `i` has every Step `j < i` enabled. -/
theorem upload_enables_addressed (st : Firmware) (n : Nat) (rs : List Int) (st1 : Firmware)
    (hlen : st.program.length = 12)
    (hup : readLines n (disableLines st) = .ok (rs, st1)) :
    (∀ i : Nat, i < 12 →
        ((st1.program.map line.enabled)[i]? = some true ↔ (i : Int) ∈ rs)) ∧
      ((∀ i j : Nat, i < 12 → j < i → (i : Int) ∈ rs → (j : Int) ∈ rs) →
        ∀ i j : Nat, i < 12 → j < i → (st1.program.map line.enabled)[i]? = some true →
          (st1.program.map line.enabled)[j]? = some true) := by
  have hlen0 : (disableLines st).program.length = 12 := by
    simp [disableLines, length_disableLinesLoop, hlen]
  have key : ∀ i : Nat, i < 12 →
      ((st1.program.map line.enabled)[i]? = some true ↔ (i : Int) ∈ rs) := by
    intro i hi
    rw [readLines_flags n _ rs st1 hup hlen0 i hi, flags_disableLines st hlen,
      List.getElem?_replicate]
    simp [hi]
  refine ⟨key, ?_⟩
  intro hclosed i j hi hj hen
  exact (key j (by omega)).mpr (hclosed i j hi hj ((key i hi).mp hen))

theorem upload_enables_addressed_witness :
    (bootState "0,0,1\n1,0,2\n".toList).program.length = 12 ∧
      readLines 2 (disableLines (bootState "0,0,1\n1,0,2\n".toList)) =
        .ok ([0, 1], twoLinesUploaded) ∧
      (twoLinesUploaded.program.map line.enabled)[1]? = some true ∧
      (twoLinesUploaded.program.map line.enabled)[0]? = some true := by
  have hup : readLines 2 (disableLines (bootState "0,0,1\n1,0,2\n".toList)) =
      .ok ([0, 1], twoLinesUploaded) := by decide
  have h := upload_enables_addressed (bootState "0,0,1\n1,0,2\n".toList) 2 [0, 1]
    twoLinesUploaded (by decide) hup
  exact ⟨by decide, hup, (h.1 1 (by decide)).mpr (by decide),
    h.2 (by
        intro i j _ hj hmem
        simp only [List.mem_cons, List.mem_singleton, List.not_mem_nil, or_false] at hmem ⊢
        omega)
      1 0 (by decide) (by decide) ((h.1 1 (by decide)).mpr (by decide))⟩

/-! ## The DDS driver -/

theorem transferLoop_eq (bytes : List Nat) : ∀ (n i : Nat) (hw : List Event),
    i + n ≤ bytes.length →
      transferLoop bytes n i hw = .ok (hw ++ ((bytes.drop i).take n).map Event.transfer) := by
  intro n
  induction n with
  | zero => intro i hw _; simp [transferLoop]
  | succ n ih =>
    intro i hw h
    have hi : i < bytes.length := by omega
    rw [transferLoop, List.getElem?_eq_getElem hi]
    simp only
    rw [ih (i + 1) _ (by omega)]
    have hd : bytes.drop i = bytes[i] :: bytes.drop (i + 1) := List.drop_eq_getElem_cons hi
    rw [hd, List.take_succ_cons, List.map_cons]
    simp

theorem regDepths_lookup (reg : Nat) (hreg : reg ≤ 22) :
    ∃ depth, regDepths[reg]? = some depth ∧ 0 ≤ depth ∧ depth ≤ 8 := by
  have hlen : regDepths.length = 23 := rfl
  have h : reg < regDepths.length := by omega
  refine ⟨regDepths[reg], List.getElem?_eq_getElem h, ?_⟩
  have hall : ∀ d ∈ regDepths, 0 ≤ d ∧ d ≤ 8 := by decide
  exact hall _ (List.getElem_mem h)

theorem writeRegister_reject (reg : Nat) (bytes : List Nat) (n depth : Int) (hw : List Event)
    (hd : regDepths[reg]? = some depth) (hn : n > depth) :
    writeRegister reg bytes n hw = .ok (-1, hw) := by
  simp [writeRegister, hd, hn]

theorem writeRegister_accept (reg : Nat) (bytes : List Nat) (n depth : Int) (hw : List Event)
    (hd : regDepths[reg]? = some depth) (hn : n ≤ depth) (hb : n ≤ (bytes.length : Int)) :
    writeRegister reg bytes n hw =
      .ok (0, hw ++ [.digitalWrite .SS LOW, .transfer (reg % 256)] ++
        (bytes.take n.toNat).map Event.transfer ++ (if n < depth then ioReset [] else []) ++
        [.digitalWrite .SS HIGH]) := by
  have hn2 : ¬ n > depth := by omega
  have hlen : 0 + n.toNat ≤ bytes.length := by omega
  simp only [writeRegister, hd, hn2, if_false]
  rw [transferLoop_eq bytes _ 0 _ hlen]
  simp only [List.drop_zero]
  by_cases hlt : n < depth
  · simp [hlt, ioReset]
  · simp [hlt]

theorem bytesTransferred_append (a b : List Event) :
    bytesTransferred (a ++ b) = bytesTransferred a ++ bytesTransferred b := by
  simp [bytesTransferred, List.filterMap_append]

theorem bytesTransferred_map (l : List Nat) :
    bytesTransferred (l.map Event.transfer) = l := by
  induction l with
  | nil => rfl
  | cons a l ih =>
    have : bytesTransferred [Event.transfer a] = [a] := rfl
    rw [List.map_cons, ← List.singleton_append, bytesTransferred_append, ih, this]
    rfl

/-- C11: for a register address `reg ≤ 22` and a byte count `n` that the array
`bytes` covers, `writeRegister` returns -1 or 0, and it returns -1 exactly when
`n` exceeds `regDepths[reg]`; when it returns -1 the trace of pin writes and SPI
transfers is the one it was called with. -/
theorem writeRegister_return_code (reg : Nat) (bytes : List Nat) (n : Int) (hw : List Event)
    (hreg : reg ≤ 22) (hb : n ≤ (bytes.length : Int)) :
    ∃ depth r hw1, regDepths[reg]? = some depth ∧
      writeRegister reg bytes n hw = .ok (r, hw1) ∧
      (r = -1 ↔ n > depth) ∧ (r = 0 ↔ n ≤ depth) ∧ (r = -1 → hw1 = hw) := by
  obtain ⟨depth, hd, _, _⟩ := regDepths_lookup reg hreg
  by_cases hn : n > depth
  · exact ⟨depth, -1, hw, hd, writeRegister_reject reg bytes n depth hw hd hn,
      by simp [hn], by constructor <;> intro h <;> omega, fun _ => rfl⟩
  · exact ⟨depth, 0, _, hd, writeRegister_accept reg bytes n depth hw hd (by omega) hb,
      by constructor <;> intro h <;> omega, by constructor <;> intro h <;> omega,
      fun h => by omega⟩

theorem writeRegister_return_code_witness :
    CFR1 ≤ 22 ∧ (5 : Int) ≤ (([1, 2, 3, 4, 5] : List Nat).length : Int) ∧
      regDepths[CFR1]? = some 4 ∧
      writeRegister CFR1 [1, 2, 3, 4, 5] 5 [] = .ok (-1, []) := by
  obtain ⟨depth, r, hw1, h1, h2, h3, _, h5⟩ :=
    writeRegister_return_code CFR1 [1, 2, 3, 4, 5] 5 [] (by decide) (by decide)
  have hd : regDepths[CFR1]? = some 4 := by decide
  have hdepth : depth = 4 := by
    rw [hd] at h1
    exact (Option.some.inj h1).symm
  subst hdepth
  have hr : r = -1 := h3.mpr (by decide)
  subst hr
  rw [h5 rfl] at h2
  exact ⟨by decide, by decide, hd, h2⟩

/-- C12: for `reg ≤ 22` and `n ≤ regDepths[reg]`, with `bytes` holding at least
`n` bytes, `writeRegister` returns 0 and adds to the trace, in this order: SS
driven low, the transfer of the address byte `reg`, the transfers of the first
`n` bytes of `bytes`, the events of `ioReset` if and only if
`n < regDepths[reg]`, and SS driven high. The bytes sent over SPI are `reg`
followed by those `n` bytes and no others. -/
theorem writeRegister_trace (reg : Nat) (bytes : List Nat) (n depth : Int) (hw : List Event)
    (hreg : reg ≤ 22) (hd : regDepths[reg]? = some depth) (hn : n ≤ depth)
    (hb : n ≤ (bytes.length : Int)) :
    writeRegister reg bytes n hw =
        .ok (0, hw ++ [.digitalWrite .SS LOW, .transfer reg] ++
          (bytes.take n.toNat).map Event.transfer ++ (if n < depth then ioReset [] else []) ++
          [.digitalWrite .SS HIGH]) ∧
      bytesTransferred ([.digitalWrite .SS LOW, .transfer reg] ++
          (bytes.take n.toNat).map Event.transfer ++ (if n < depth then ioReset [] else []) ++
          [.digitalWrite .SS HIGH]) = reg :: bytes.take n.toNat := by
  have hmod : reg % 256 = reg := by omega
  constructor
  · rw [writeRegister_accept reg bytes n depth hw hd hn hb, hmod]
  · simp only [bytesTransferred_append, bytesTransferred_map]
    by_cases hlt : n < depth
    · rw [if_pos hlt]
      have e1 : bytesTransferred [Event.digitalWrite Pin.SS LOW, Event.transfer reg] = [reg] :=
        rfl
      have e2 : bytesTransferred (ioReset []) = [] := rfl
      have e3 : bytesTransferred [Event.digitalWrite Pin.SS HIGH] = [] := rfl
      rw [e1, e2, e3]
      simp
    · rw [if_neg hlt]
      have e1 : bytesTransferred [Event.digitalWrite Pin.SS LOW, Event.transfer reg] = [reg] :=
        rfl
      have e2 : bytesTransferred [] = [] := rfl
      have e3 : bytesTransferred [Event.digitalWrite Pin.SS HIGH] = [] := rfl
      rw [e1, e2, e3]
      simp

theorem writeRegister_trace_witness :
    DRR ≤ 22 ∧ regDepths[DRR]? = some 4 ∧
      writeRegister DRR [1, 2, 3, 4] 2 [] =
        .ok (0, [.digitalWrite .SS LOW, .transfer 13, .transfer 1, .transfer 2,
          .digitalWrite .IO_RESET HIGH, .delayMicroseconds 100, .digitalWrite .IO_UPDATE LOW,
          .digitalWrite .SS HIGH]) :=
  ⟨by decide, by decide,
    (writeRegister_trace DRR [1, 2, 3, 4] 2 4 [] (by decide) (by decide) (by decide)
      (by decide)).1⟩
theorem writeRegister_full (reg : Nat) (bytes : List Nat) (hw : List Event) (hreg : reg ≤ 22)
    (hd : regDepths[reg]? = some (bytes.length : Int)) :
    writeRegister reg bytes bytes.length hw = .ok (0, hw ++ registerWrite reg bytes) := by
  have hmod : reg % 256 = reg := by omega
  rw [writeRegister_accept reg bytes _ _ hw hd (le_refl _) (le_refl _), hmod]
  simp [registerWrite]

theorem pinsWritten_registerWrite (reg : Nat) (bytes : List Nat) :
    pinsWritten (registerWrite reg bytes) = [Pin.SS, Pin.SS] := by
  have hmap : pinsWritten (bytes.map Event.transfer) = [] := by
    induction bytes with
    | nil => rfl
    | cons a l ih =>
      simp only [pinsWritten, List.map_cons, List.filterMap_cons] at ih ⊢
      exact ih
  have happ : ∀ a b : List Event, pinsWritten (a ++ b) = pinsWritten a ++ pinsWritten b := by
    intro a b
    simp [pinsWritten, List.filterMap_append]
  rw [registerWrite, happ, happ, hmap]
  rfl

/-- C13: a write of 3 bytes to the 4-byte register CFR1 returns 0 and issues the
I/O reset, whose events are IO_RESET driven high, a wait, and IO_UPDATE driven
low. IO_RESET is never driven low again, so it is high when `writeRegister`
returns, and IO_UPDATE, a pin other than SS and IO_RESET, is written. -/
theorem writeRegister_short_payload (hw : List Event) :
    writeRegister CFR1 [0x00, 0x20, 0x00] 3 hw =
        .ok (0, hw ++ [.digitalWrite .SS LOW, .transfer 0, .transfer 0x00, .transfer 0x20,
          .transfer 0x00, .digitalWrite .IO_RESET HIGH, .delayMicroseconds 100,
          .digitalWrite .IO_UPDATE LOW, .digitalWrite .SS HIGH]) ∧
      pinLevel .IO_RESET [.digitalWrite .SS LOW, .transfer 0, .transfer 0x00, .transfer 0x20,
          .transfer 0x00, .digitalWrite .IO_RESET HIGH, .delayMicroseconds 100,
          .digitalWrite .IO_UPDATE LOW, .digitalWrite .SS HIGH] = some HIGH ∧
      pinsWritten [.digitalWrite .SS LOW, .transfer 0, .transfer 0x00, .transfer 0x20,
          .transfer 0x00, .digitalWrite .IO_RESET HIGH, .delayMicroseconds 100,
          .digitalWrite .IO_UPDATE LOW, .digitalWrite .SS HIGH] =
        [.SS, .IO_RESET, .IO_UPDATE, .SS] := by
  refine ⟨?_, by decide, by decide⟩
  rw [writeRegister_accept CFR1 [0x00, 0x20, 0x00] 3 4 hw (by decide) (by decide) (by decide)]
  simp [ioReset, CFR1]

/-- C14: `drgEnable(flag)` adds to the trace one register write to CFR2, address
0x01, with the payload 00 48 00 20 when `flag` is true and 01 40 00 20 when it
is false, and nothing else; the only pin it drives is SS, so IO_UPDATE is not
driven. After `drgEnable(true); drgEnable(false)` the trace ends with the write
of 01 40 00 20 to CFR2. -/
theorem drgEnable_trace (flag : Bool) (hw : List Event) :
    drgEnable flag hw =
        .ok (hw ++ registerWrite 0x01 (if flag then [0x00, 0x48, 0x00, 0x20]
          else [0x01, 0x40, 0x00, 0x20])) ∧
      pinsWritten (registerWrite 0x01 (if flag then [0x00, 0x48, 0x00, 0x20]
          else [0x01, 0x40, 0x00, 0x20])) = [.SS, .SS] ∧
      ∃ hw1, drgEnable true hw = .ok hw1 ∧
        drgEnable false hw1 = .ok (hw1 ++ registerWrite 0x01 [0x01, 0x40, 0x00, 0x20]) := by
  have h1 : ∀ hw0, writeRegister CFR2 cfr2_bytes_drg_enable 4 hw0 =
      .ok (0, hw0 ++ registerWrite 0x01 [0x00, 0x48, 0x00, 0x20]) :=
    fun hw0 => writeRegister_full CFR2 cfr2_bytes_drg_enable hw0 (by decide) (by decide)
  have h2 : ∀ hw0, writeRegister CFR2 cfr2_bytes 4 hw0 =
      .ok (0, hw0 ++ registerWrite 0x01 [0x01, 0x40, 0x00, 0x20]) :=
    fun hw0 => writeRegister_full CFR2 cfr2_bytes hw0 (by decide) (by decide)
  have ht : ∀ hw0, drgEnable true hw0 =
      .ok (hw0 ++ registerWrite 0x01 [0x00, 0x48, 0x00, 0x20]) := by
    intro hw0
    simp [drgEnable, h1]
  have hf : ∀ hw0, drgEnable false hw0 =
      .ok (hw0 ++ registerWrite 0x01 [0x01, 0x40, 0x00, 0x20]) := by
    intro hw0
    simp [drgEnable, h2]
  refine ⟨?_, pinsWritten_registerWrite _ _, _, ht hw, hf _⟩
  cases flag
  · simpa using hf hw
  · simpa using ht hw

/-- C19: `regDepths` is 4 for CFR1, CFR2, CFR3 and AUXDAC, 8 for P0..P7, for DRL
and for DRSS, and 4 for DRR. So `writeRegister` with a payload of 8 bytes to a
profile register, to DRL or to DRSS, with 4 bytes to DRR, or with 4 bytes to a
control register or AUXDAC, returns 0 and adds one register write that drives
no pin but SS; and `ddsCFRInit` returns 0 after its four writes, each followed
by an I/O update. -/
theorem full_payloads_fit (hw : List Event) :
    (regDepths[CFR1]? = some 4 ∧ regDepths[CFR2]? = some 4 ∧ regDepths[CFR3]? = some 4 ∧
        regDepths[AUXDAC]? = some 4 ∧ regDepths[DRL]? = some 8 ∧ regDepths[DRSS]? = some 8 ∧
        regDepths[DRR]? = some 4 ∧ ∀ k, k < 8 → regDepths[P0 + k]? = some 8) ∧
      (∀ reg bytes, (P0 ≤ reg ∧ reg ≤ P7) ∨ reg = DRL ∨ reg = DRSS → bytes.length = 8 →
        writeRegister reg bytes 8 hw = .ok (0, hw ++ registerWrite reg bytes)) ∧
      (∀ reg bytes, reg = DRR ∨ reg = CFR1 ∨ reg = CFR2 ∨ reg = CFR3 ∨ reg = AUXDAC →
        bytes.length = 4 →
        writeRegister reg bytes 4 hw = .ok (0, hw ++ registerWrite reg bytes)) ∧
      (∀ reg bytes, pinsWritten (registerWrite reg bytes) = [.SS, .SS]) ∧
      ddsCFRInit hw =
        .ok (0, ioUpdate (ioUpdate (ioUpdate (ioUpdate (hw ++ registerWrite CFR1 cfr1_bytes) ++
          registerWrite CFR2 cfr2_bytes) ++ registerWrite CFR3 cfr3_bytes) ++
          registerWrite AUXDAC auxdac_bytes)) := by
  refine ⟨⟨by decide, by decide, by decide, by decide, by decide, by decide, by decide, ?_⟩,
    ?_, ?_, pinsWritten_registerWrite, ?_⟩
  · intro k hk
    have h8 : k = 0 ∨ k = 1 ∨ k = 2 ∨ k = 3 ∨ k = 4 ∨ k = 5 ∨ k = 6 ∨ k = 7 := by omega
    rcases h8 with h | h | h | h | h | h | h | h <;> subst h <;> decide
  · intro reg bytes hreg hlen
    have hd : regDepths[reg]? = some (bytes.length : Int) := by
      rw [hlen]
      simp only [P0, P7, DRL, DRSS] at hreg
      have h10 : reg = 11 ∨ reg = 12 ∨ reg = 14 ∨ reg = 15 ∨ reg = 16 ∨ reg = 17 ∨ reg = 18 ∨
          reg = 19 ∨ reg = 20 ∨ reg = 21 := by omega
      rcases h10 with h | h | h | h | h | h | h | h | h | h <;> subst h <;> decide
    have hr : reg ≤ 22 := by
      simp only [P0, P7, DRL, DRSS] at hreg
      omega
    have := writeRegister_full reg bytes hw hr hd
    rw [hlen] at this
    exact this
  · intro reg bytes hreg hlen
    have hd : regDepths[reg]? = some (bytes.length : Int) := by
      rw [hlen]
      rcases hreg with h | h | h | h | h <;> subst h <;> decide
    have hr : reg ≤ 22 := by
      rcases hreg with h | h | h | h | h <;> subst h <;> decide
    have := writeRegister_full reg bytes hw hr hd
    rw [hlen] at this
    exact this
  · have w1 := fun hw0 => writeRegister_full CFR1 cfr1_bytes hw0 (by decide) (by decide)
    have w2 := fun hw0 => writeRegister_full CFR2 cfr2_bytes hw0 (by decide) (by decide)
    have w3 := fun hw0 => writeRegister_full CFR3 cfr3_bytes hw0 (by decide) (by decide)
    have w4 := fun hw0 => writeRegister_full AUXDAC auxdac_bytes hw0 (by decide) (by decide)
    have l1 : ((cfr1_bytes.length : Nat) : Int) = 4 := rfl
    have l2 : ((cfr2_bytes.length : Nat) : Int) = 4 := rfl
    have l3 : ((cfr3_bytes.length : Nat) : Int) = 4 := rfl
    have l4 : ((auxdac_bytes.length : Nat) : Int) = 4 := rfl
    rw [l1] at w1
    rw [l2] at w2
    rw [l3] at w3
    rw [l4] at w4
    simp [ddsCFRInit, w1, w2, w3, w4]

theorem full_payloads_fit_witness :
    ((P0 ≤ P0 + 3 ∧ P0 + 3 ≤ P7) ∨ P0 + 3 = DRL ∨ P0 + 3 = DRSS) ∧
      ([0x3F, 0xFF, 0, 0, 0x20, 0, 0, 0] : List Nat).length = 8 ∧
      writeRegister (P0 + 3) [0x3F, 0xFF, 0, 0, 0x20, 0, 0, 0] 8 [] =
        .ok (0, registerWrite (P0 + 3) [0x3F, 0xFF, 0, 0, 0x20, 0, 0, 0]) :=
  ⟨by decide, by decide,
    (full_payloads_fit []).2.1 (P0 + 3) [0x3F, 0xFF, 0, 0, 0x20, 0, 0, 0] (by decide)
      (by decide)⟩
/-! ## The profile table during an upload -/

theorem readDataLine_profiles (st : Firmware) (temp_char : List Char) (r : Int)
    (st1 : Firmware) (h : readDataLine st temp_char = .ok (r, st1)) (k : Nat)
    (hk : r ≠ ((12 + k : Nat) : Int)) : st1.profiles[k]? = st.profiles[k]? := by
  rcases htok : strtokAll temp_char with _ | ⟨a, _ | ⟨b, tokens⟩⟩
  · simp [readDataLine, htok] at h
  · simp [readDataLine, htok] at h
  · by_cases hi : hexByte a < 12
    · cases hl : st.program[hexByte a]? with
      | none => simp [readDataLine, htok, hi, hl] at h
      | some l =>
        by_cases ht : hexByte b ≤ 3
        · rw [readDataLine_step st temp_char a b tokens l htok hi hl ht] at h
          simp only [Except.ok.injEq, Prod.mk.injEq] at h
          obtain ⟨_, hst⟩ := h
          subst hst
          rfl
        · by_cases ht4 : hexByte b = 4
          · rw [readDataLine_invert st temp_char a b tokens l htok hi hl ht4] at h
            simp only [Except.ok.injEq, Prod.mk.injEq] at h
            obtain ⟨_, hst⟩ := h
            subst hst
            rfl
          · cases tokens with
            | nil =>
              rw [readDataLine_unknown st temp_char a b l htok hi hl (by omega)] at h
              simp only [Except.ok.injEq, Prod.mk.injEq] at h
              obtain ⟨_, hst⟩ := h
              subst hst
              rfl
            | cons c tokens =>
              rw [readDataLine_unknown_payload st temp_char a b c tokens l htok hi hl
                (by omega)] at h
              simp at h
    · rw [readDataLine_profile st temp_char a b tokens htok (by omega)] at h
      cases hp : st.profiles[hexByte a - 12]? with
      | none => simp [hp] at h
      | some p =>
        simp only [hp, Except.ok.injEq, Prod.mk.injEq] at h
        obtain ⟨hr, hst⟩ := h
        subst hst
        have hne : hexByte a - 12 ≠ k := by
          intro e
          apply hk
          rw [← hr]
          have : 12 + k = hexByte a := by omega
          rw [this]
        simp [getElem?_modifyNth, hne]

theorem readLineFromSerial_profiles (st : Firmware) (r : Int) (st1 : Firmware)
    (h : readLineFromSerial st = .ok (r, st1)) (k : Nat) (hk : r ≠ ((12 + k : Nat) : Int)) :
    st1.profiles[k]? = st.profiles[k]? := by
  unfold readLineFromSerial at h
  by_cases hrx : st.rx.length > 0
  · simp only [hrx, if_true] at h
    generalize (if (readStringUntil '\n' st.rx).1.length = 0 then
      readStringUntil '\n' (readStringUntil '\n' st.rx).2 else readStringUntil '\n' st.rx) = read
      at h
    by_cases he1 : equals read.1 "cxn?".toList = true
    · rw [if_pos he1] at h
      simp only [Except.ok.injEq, Prod.mk.injEq] at h
      obtain ⟨_, hst⟩ := h
      subst hst
      rfl
    · by_cases he2 : equals read.1 "Done".toList = true
      · rw [if_neg he1, if_pos he2] at h
        simp only [Except.ok.injEq, Prod.mk.injEq] at h
        obtain ⟨_, hst⟩ := h
        subst hst
        rfl
      · rw [if_neg he1, if_neg he2] at h
        exact readDataLine_profiles { st with rx := read.2 } _ _ _ h k hk
  · simp only [hrx, if_false, Except.ok.injEq, Prod.mk.injEq] at h
    obtain ⟨_, hst⟩ := h
    subst hst
    rfl

theorem readLines_profiles : ∀ (n : Nat) (st : Firmware) (rs : List Int) (st1 : Firmware),
    readLines n st = .ok (rs, st1) → ∀ k : Nat, ((12 + k : Nat) : Int) ∉ rs →
      st1.profiles[k]? = st.profiles[k]? := by
  intro n
  induction n with
  | zero =>
    intro st rs st1 h k _
    simp only [readLines, Except.ok.injEq, Prod.mk.injEq] at h
    obtain ⟨_, hst⟩ := h
    subst hst
    rfl
  | succ n ih =>
    intro st rs st1 h k hk
    rw [readLines] at h
    cases h1 : readLineFromSerial st with
    | error e => simp [h1] at h
    | ok v =>
      obtain ⟨r, st2⟩ := v
      simp only [h1] at h
      cases h2 : readLines n st2 with
      | error e => simp [h2] at h
      | ok w =>
        obtain ⟨rs2, st3⟩ := w
        simp only [h2, Except.ok.injEq, Prod.mk.injEq] at h
        obtain ⟨hr, hst⟩ := h
        subst hr hst
        simp only [List.mem_cons, not_or] at hk
        rw [ih st2 rs2 st3 h2 k hk.2,
          readLineFromSerial_profiles st r st2 h1 k (fun e => hk.1 e.symm)]

/-- C15: on allocated tables, `zeroProfiles` leaves each of the 8 Profiles with
the payload 3F FF 00 00 00 00 00 00 and the channel it had; and after
`zeroProfiles` and any number of calls of `readLineFromSerial` that all return,
every Profile `k` for which no call returned the slot index `12 + k` still holds
that payload. -/
theorem zeroProfiles_sentinel (st : Firmware) (halloc : Allocated st) :
    zero_reg = [0x3F, 0xFF, 0x00, 0x00, 0x00, 0x00, 0x00, 0x00] ∧
      (∀ k, k < 8 → ∃ p, st.profiles[k]? = some p ∧
        (zeroProfiles st).profiles[k]? = some { channel := p.channel, dataArray := zero_reg }) ∧
      ∀ n rs st1, readLines n (zeroProfiles st) = .ok (rs, st1) →
        ∀ k, k < 8 → ((12 + k : Nat) : Int) ∉ rs →
          (st1.profiles[k]?).map profile.dataArray = some zero_reg := by
  have hz : (zeroProfiles st).profiles =
      st.profiles.map fun p => { p with dataArray := zero_reg } := by
    rw [zeroProfiles_eq st halloc]
  have hlook : ∀ k, k < 8 → ∃ p, st.profiles[k]? = some p ∧
      (zeroProfiles st).profiles[k]? = some { channel := p.channel, dataArray := zero_reg } := by
    intro k hk
    have hkl : k < st.profiles.length := by
      have := halloc.2.2.1
      omega
    refine ⟨st.profiles[k], List.getElem?_eq_getElem hkl, ?_⟩
    rw [hz, List.getElem?_map, List.getElem?_eq_getElem hkl]
    rfl
  refine ⟨rfl, hlook, ?_⟩
  intro n rs st1 hup k hk hnot
  obtain ⟨p, _, hp⟩ := hlook k hk
  rw [readLines_profiles n _ rs st1 hup k hnot, hp]
  rfl

theorem zeroProfiles_sentinel_witness :
    Allocated (bootState "F,0,1,2\n".toList) ∧
      ∃ st1, readLines 1 (zeroProfiles (bootState "F,0,1,2\n".toList)) = .ok ([15], st1) ∧
        (st1.profiles[0]?).map profile.dataArray = some zero_reg ∧
        (st1.profiles[7]?).map profile.dataArray = some zero_reg := by
  refine ⟨by decide, ?_⟩
  have hrs : (readLines 1 (zeroProfiles (bootState "F,0,1,2\n".toList))).map Prod.fst =
      .ok [15] := by decide
  cases h : readLines 1 (zeroProfiles (bootState "F,0,1,2\n".toList)) with
  | error e =>
    rw [h] at hrs
    cases hrs
  | ok v =>
    obtain ⟨rs, st1⟩ := v
    rw [h] at hrs
    have hrs2 : rs = [15] := by
      simpa [Except.map] using hrs
    subst hrs2
    have hs := (zeroProfiles_sentinel (bootState "F,0,1,2\n".toList) (by decide)).2.2 1 [15] st1 h
    exact ⟨st1, rfl, hs 0 (by decide) (by decide), hs 7 (by decide) (by decide)⟩
/-! ## The echo -/

theorem printBytesLoop_eq (buf : List Nat) : ∀ (n i : Nat) (tx : List Char),
    i + n ≤ buf.length →
      printBytesLoop buf n i tx =
        .ok (tx ++ (((buf.drop i).take n).map fun b => hexField b ++ [',']).flatten) := by
  intro n
  induction n with
  | zero => intro i tx _; simp [printBytesLoop]
  | succ n ih =>
    intro i tx h
    have hi : i < buf.length := by omega
    rw [printBytesLoop, List.getElem?_eq_getElem hi]
    simp only
    rw [ih (i + 1) _ (by omega)]
    have hd : buf.drop i = buf[i] :: buf.drop (i + 1) := List.drop_eq_getElem_cons hi
    rw [hd, List.take_succ_cons, List.map_cons, List.flatten_cons]
    simp

theorem printBytesLoop_full (buf : List Nat) (n : Nat) (tx : List Char) (h : buf.length = n) :
    printBytesLoop buf n 0 tx = .ok (tx ++ (buf.map fun b => hexField b ++ [',']).flatten) := by
  rw [printBytesLoop_eq buf n 0 tx (by omega), List.drop_zero, ← h, List.take_length]

theorem serialPrintProgram_eq (st : Firmware) (i : Nat) (l : line) (hi : i < 12)
    (hl : st.program[i]? = some l)
    (hlen : l.single.length = 8 ∧ l.drLimits.length = 8 ∧ l.drStepSize.length = 8 ∧
      l.drRate.length = 4) :
    serialPrintProgram (i : Int) st = .ok (none, { st with tx := st.tx ++ programBlock i l }) := by
  have h1 : ¬ (i : Int) ≥ 12 := by omega
  have h2 : ¬ (i : Int) < 0 := by omega
  have hsw : (if l.sweepInvert then printDEC 1 else printDEC 0) =
      (if l.sweepInvert then ['1'] else ['0']) := by
    cases l.sweepInvert <;> rfl
  simp only [serialPrintProgram, h1, h2, if_false, Int.toNat_ofNat, hl, hsw]
  by_cases hm0 : l.mode = 0
  · simp only [hm0, if_true]
    rw [printBytesLoop_full l.single _ _ (by simp [hlen.1, AMPL_LENGTH, POW_LENGTH, FTW_LENGTH])]
    simp [programBlock, programHeader, hexLine, hm0]
  · by_cases hm1 : l.mode = 1
    · simp only [hm1, if_true]
      rw [printBytesLoop_full l.drLimits _ _ (by simp [hlen.2.1, FTW_LENGTH])]
      simp only
      rw [printBytesLoop_full l.drStepSize _ _ (by simp [hlen.2.2.1, FTW_LENGTH])]
      simp only
      rw [printBytesLoop_full l.drRate _ _ (by simp [hlen.2.2.2, RAMP_RATE_LENGTH])]
      simp [programBlock, programHeader, hexLine, hm1]
    · simp [programBlock, programHeader, hm0, hm1]

theorem serialPrintProfile_eq (st : Firmware) (k : Nat) (p : profile) (hk : k < 8)
    (hp : st.profiles[k]? = some p) (hlen : p.dataArray.length = 8) :
    serialPrintProfile (k : Int) st = .ok (none, { st with tx := st.tx ++ profileBlock k p }) := by
  have h1 : ¬ (k : Int) ≥ 8 := by omega
  have h2 : ¬ (k : Int) < 0 := by omega
  have hhex : printHEX (k : Int) = hexField k := by
    unfold printHEX
    congr 1
    omega
  simp only [serialPrintProfile, h1, h2, if_false, Int.toNat_ofNat, hp, hhex]
  rw [printBytesLoop_full p.dataArray _ _ (by simp [hlen, FTW_LENGTH])]
  simp [profileBlock, hexLine]

theorem serialPrintProgram_reject (st : Firmware) (index : Int) (h : index ≥ 12) :
    serialPrintProgram index st = .ok (some (-1), st) := by
  simp [serialPrintProgram, h]

/-- The first loop of `echoData`, entered at `i` with `n` iterations to go, the
last of them at most with the index 12, which `serialPrintProgram` rejects. -/
theorem echoProgramLoop_eq (program : List line) (profiles : List profile) (rx : List Char)
    (hlen : program.length = 12)
    (hbuf : ∀ l ∈ program, l.single.length = 8 ∧ l.drLimits.length = 8 ∧
      l.drStepSize.length = 8 ∧ l.drRate.length = 4) :
    ∀ (n i : Nat) (tx : List Char), i + n ≤ 13 →
      echoProgramLoop n i { program := program, profiles := profiles, rx := rx, tx := tx } =
        .ok { program := program, profiles := profiles, rx := rx,
              tx := tx ++ programBlocks i ((program.drop i).take n) } := by
  intro n
  induction n with
  | zero => intro i tx _; simp [echoProgramLoop, programBlocks]
  | succ n ih =>
    intro i tx h
    by_cases hi : i < 12
    · have hil : i < program.length := by omega
      have hl : program[i]? = some program[i] := List.getElem?_eq_getElem hil
      rw [echoProgramLoop, serialPrintProgram_eq _ i program[i] hi hl
        (hbuf _ (List.getElem_mem hil))]
      simp only
      rw [ih (i + 1) _ (by omega)]
      have hd : program.drop i = program[i] :: program.drop (i + 1) :=
        List.drop_eq_getElem_cons hil
      rw [hd, List.take_succ_cons, programBlocks]
      simp
    · have hi12 : i = 12 := by omega
      have hn : n = 0 := by omega
      subst hi12 hn
      rw [echoProgramLoop, serialPrintProgram_reject _ _ (by decide)]
      simp only [echoProgramLoop]
      have : program.drop 12 = [] := List.drop_eq_nil_iff.mpr (by omega)
      simp [this, programBlocks]

theorem echoProfileLoop_eq (program : List line) (profiles : List profile) (rx : List Char)
    (hlen : profiles.length = 8) (hbuf : ∀ p ∈ profiles, p.dataArray.length = 8) :
    ∀ (n i : Nat) (tx : List Char), i + n ≤ 8 →
      echoProfileLoop n i { program := program, profiles := profiles, rx := rx, tx := tx } =
        .ok { program := program, profiles := profiles, rx := rx,
              tx := tx ++ profileBlocks i ((profiles.drop i).take n) } := by
  intro n
  induction n with
  | zero => intro i tx _; simp [echoProfileLoop, profileBlocks]
  | succ n ih =>
    intro i tx h
    have hil : i < profiles.length := by omega
    have hl : profiles[i]? = some profiles[i] := List.getElem?_eq_getElem hil
    rw [echoProfileLoop, serialPrintProfile_eq _ i profiles[i] (by omega) hl
      (hbuf _ (List.getElem_mem hil))]
    simp only
    rw [ih (i + 1) _ (by omega)]
    have hd : profiles.drop i = profiles[i] :: profiles.drop (i + 1) :=
      List.drop_eq_getElem_cons hil
    rw [hd, List.take_succ_cons, profileBlocks]
    simp

/-- The text `echoData` prints for `lastLine` between -1 and 12. -/
theorem echoData_eq (st : Firmware) (halloc : Allocated st) (lastLine : Int)
    (h1 : -1 ≤ lastLine) (h2 : lastLine ≤ 12) :
    echoData lastLine st =
      .ok { st with tx := st.tx ++ programBlocks 0 (st.program.take (lastLine + 1).toNat) ++
              profileBlocks 0 st.profiles } := by
  obtain ⟨program, profiles, rx, tx⟩ := st
  obtain ⟨hp, hpb, hq, hqb⟩ := halloc
  simp only at hp hpb hq hqb
  unfold echoData
  rw [echoProgramLoop_eq program profiles rx hp hpb _ 0 tx (by omega)]
  simp only [NUM_PROFILES]
  rw [echoProfileLoop_eq program profiles rx hq hqb 8 0 _ (by omega)]
  have : profiles.take 8 = profiles := by
    rw [← hq, List.take_length]
  simp [this]
/-! ## Printed numbers -/

theorem toDigitsCore_chars (P : Char → Prop) (base : Nat)
    (hP : ∀ k, P (Nat.digitChar (k % base))) :
    ∀ (fuel n : Nat) (ds : List Char), (∀ c ∈ ds, P c) →
      ∀ c ∈ Nat.toDigitsCore base fuel n ds, P c := by
  intro fuel
  induction fuel with
  | zero => intro n ds hds c hc; exact hds c (by simpa [Nat.toDigitsCore] using hc)
  | succ fuel ih =>
    intro n ds hds c hc
    have hds2 : ∀ c ∈ Nat.digitChar (n % base) :: ds, P c := by
      intro c hc
      rcases List.mem_cons.mp hc with h | h
      · rw [h]; exact hP n
      · exact hds c h
    simp only [Nat.toDigitsCore] at hc
    split at hc
    · exact hds2 c hc
    · exact ih _ _ hds2 c hc

theorem toDigitsCore_ne_nil (base : Nat) :
    ∀ (fuel n : Nat) (ds : List Char), fuel ≠ 0 ∨ ds ≠ [] →
      Nat.toDigitsCore base fuel n ds ≠ [] := by
  intro fuel
  induction fuel with
  | zero =>
    intro n ds h
    rcases h with h | h
    · exact absurd rfl h
    · simpa [Nat.toDigitsCore] using h
  | succ fuel ih =>
    intro n ds _
    simp only [Nat.toDigitsCore]
    split
    · simp
    · exact ih _ _ (Or.inr (by simp))

theorem digitChar_plain (base : Nat) (hb : 0 < base) (hb16 : base ≤ 16) (k : Nat) :
    (Nat.digitChar (k % base)).toUpper ≠ ',' ∧ (Nat.digitChar (k % base)).toUpper ≠ '\n' ∧
      (Nat.digitChar (k % base)).toUpper ≠ Char.ofNat 0 ∧
      Nat.digitChar (k % base) ≠ ',' ∧ Nat.digitChar (k % base) ≠ '\n' := by
  have hlt : k % base < 16 := lt_of_lt_of_le (Nat.mod_lt k hb) hb16
  generalize k % base = m at hlt
  have hall : ∀ m, m < 16 → (Nat.digitChar m).toUpper ≠ ',' ∧
      (Nat.digitChar m).toUpper ≠ '\n' ∧ (Nat.digitChar m).toUpper ≠ Char.ofNat 0 ∧
      Nat.digitChar m ≠ ',' ∧ Nat.digitChar m ≠ '\n' := by decide
  exact hall m hlt

/-- A number printed in hexadecimal is a field: it is not empty and holds no
comma, no newline and no NUL. -/
theorem isField_hexField (n : Nat) : isField (hexField n) = true := by
  rw [isField_iff]
  constructor
  · unfold hexField Nat.toDigits
    intro h
    exact toDigitsCore_ne_nil 16 _ _ _ (Or.inl (by omega)) (List.map_eq_nil_iff.mp h)
  · intro c hc
    unfold hexField Nat.toDigits at hc
    obtain ⟨d, hd, rfl⟩ := List.mem_map.mp hc
    have := toDigitsCore_chars
      (fun c => c.toUpper ≠ ',' ∧ c.toUpper ≠ '\n' ∧ c.toUpper ≠ Char.ofNat 0) 16
      (fun k => by
        have h := digitChar_plain 16 (by decide) (by decide) k
        exact ⟨h.1, h.2.1, h.2.2.1⟩)
      _ _ [] (by simp) d hd
    exact this

theorem newline_not_mem_printDEC (n : Nat) : '\n' ∉ printDEC n := by
  intro hc
  unfold printDEC Nat.toDigits at hc
  exact toDigitsCore_chars (fun c => c ≠ '\n') 10
    (fun k => (digitChar_plain 10 (by decide) (by decide) k).2.2.2.2) _ _ [] (by simp) _ hc rfl

set_option maxRecDepth 100000 in
theorem hexByte_hexField (b : Nat) (hb : b < 256) : hexByte (hexField b) = b := by
  have hall : ∀ b, b < 256 → hexByte (hexField b) = b := by decide
  exact hall b hb
theorem newline_not_mem_hexBytes (buf : List Nat) :
    '\n' ∉ (buf.map fun b => hexField b ++ [',']).flatten := by
  intro h
  obtain ⟨l, hl, hc⟩ := List.mem_flatten.mp h
  obtain ⟨b, _, rfl⟩ := List.mem_map.mp hl
  rcases List.mem_append.mp hc with h1 | h1
  · exact (((isField_iff _).mp (isField_hexField b)).2 _ h1).2.1 rfl
  · simp at h1

theorem count_newline_hexLine (buf : List Nat) : (hexLine buf).count '\n' = 1 := by
  unfold hexLine
  rw [List.count_append, List.count_eq_zero.mpr (newline_not_mem_hexBytes buf)]
  rfl

theorem count_newline_programHeader (i : Nat) (l : line) :
    (programHeader i l).count '\n' = 1 := by
  have h1 : (printDEC i).count '\n' = 0 := List.count_eq_zero.mpr (newline_not_mem_printDEC i)
  have h2 : (printHEX l.mode).count '\n' = 0 :=
    List.count_eq_zero.mpr fun h => (((isField_iff _).mp (isField_hexField _)).2 _ h).2.1 rfl
  have h3 : (if l.sweepInvert then ['1'] else ['0']).count '\n' = 0 := by
    cases l.sweepInvert <;> rfl
  unfold programHeader
  simp only [List.count_append, h1, h2, h3]
  rfl

/-- C16: on allocated tables, for a Step `i < 12` of mode 0,
`serialPrintProgram(i)` prints the index in decimal, `0` for the mode and `1` or
`0` for `sweepInvert`, each followed by a comma, and a newline; then the 8 bytes
of `single`, each in upper-case hexadecimal without leading zeros and followed
by a comma, and a newline; and nothing else. For Step 0 with the payload
0F FF 00 00 20 00 00 00 and `sweepInvert` false that is `0,0,0,` and
`F,FF,0,0,20,0,0,0,`. -/
theorem serialPrintProgram_single_tone (st : Firmware) (i : Nat) (l : line)
    (halloc : Allocated st) (hi : i < 12) (hl : st.program[i]? = some l) (hmode : l.mode = 0) :
    serialPrintProgram (i : Int) st =
        .ok (none, { st with tx := st.tx ++ (printDEC i ++ [',', '0', ','] ++
          (if l.sweepInvert then ['1'] else ['0']) ++ [',', '\n'] ++
          (l.single.map fun b => hexField b ++ [',']).flatten ++ ['\n']) }) ∧
      (i = 0 → l.single = [0x0F, 0xFF, 0x00, 0x00, 0x20, 0x00, 0x00, 0x00] →
        l.sweepInvert = false →
        serialPrintProgram 0 st =
          .ok (none, { st with tx := st.tx ++ "0,0,0,\nF,FF,0,0,20,0,0,0,\n".toList })) := by
  have hstep := serialPrintProgram_eq st i l hi hl (halloc.2.1 l (List.getElem?_mem hl))
  have hhex : printHEX 0 = ['0'] := by decide
  have hblock : programBlock i l = printDEC i ++ [',', '0', ','] ++
      (if l.sweepInvert then ['1'] else ['0']) ++ [',', '\n'] ++
      (l.single.map fun b => hexField b ++ [',']).flatten ++ ['\n'] := by
    simp [programBlock, programHeader, hexLine, hmode, hhex]
  rw [hblock] at hstep
  refine ⟨hstep, ?_⟩
  intro h0 hsingle hinv
  subst h0
  rw [hsingle, hinv] at hstep
  have htext : (printDEC 0 ++ [',', '0', ','] ++ (if false = true then ['1'] else ['0']) ++
      [',', '\n'] ++ (List.map (fun b => hexField b ++ [','])
        [0x0F, 0xFF, 0x00, 0x00, 0x20, 0x00, 0x00, 0x00]).flatten ++ ['\n']) =
      "0,0,0,\nF,FF,0,0,20,0,0,0,\n".toList := by decide
  rw [htext] at hstep
  exact hstep

theorem serialPrintProgram_single_tone_witness :
    Allocated singleToneUploaded ∧ (0 : Nat) < 12 ∧
      serialPrintProgram 0 singleToneUploaded =
        .ok (none, { singleToneUploaded with tx := "0,0,0,\nF,FF,0,0,20,0,0,0,\n".toList }) :=
  ⟨by decide, by decide,
    (serialPrintProgram_single_tone singleToneUploaded 0
      { blankLine with enabled := true, single := [0x0F, 0xFF, 0, 0, 0x20, 0, 0, 0] }
      (by decide) (by decide) (by decide) (by decide)).2 rfl rfl rfl⟩

set_option maxRecDepth 100000 in
/-- C17, as stated: for Step 0 in mode 1, `echoData(0)` prints the header line
and then three payload lines, those of `drLimits`, `drStepSize` and `drRate`,
before the profile blocks. -/
theorem echoData_sweep_three_lines :
    (echoData 0 sweepUploaded).map Firmware.tx =
      .ok ("0,1,0,\n1,2,3,4,5,6,7,8,\n0,0,0,0,0,0,0,0,\n0,0,0,0,\n".toList ++
        "0,\n3F,FF,0,0,0,0,0,0,\n1,\n3F,FF,0,0,0,0,0,0,\n".toList ++
        "2,\n3F,FF,0,0,0,0,0,0,\n3,\n3F,FF,0,0,0,0,0,0,\n".toList ++
        "4,\n3F,FF,0,0,0,0,0,0,\n5,\n3F,FF,0,0,0,0,0,0,\n".toList ++
        "6,\n3F,FF,0,0,0,0,0,0,\n7,\n3F,FF,0,0,0,0,0,0,\n".toList) := by
  decide

/-- C17, amended: on allocated tables and for `lastLine` in 0..11,
`echoData(lastLine)` prints the blocks of the Steps 0..`lastLine` in order and
then the blocks of the 8 Profiles, and nothing else. The block of a Step is its
header line followed by one payload line (`single`) in mode 0, by three payload
lines (`drLimits`, `drStepSize`, `drRate`) in mode 1, and by no payload line in
any other mode. The block of a Profile is the header line with its index in
hexadecimal and a comma, followed by the one line of its payload. -/
theorem echoData_blocks (st : Firmware) (halloc : Allocated st) (lastLine : Nat)
    (hlast : lastLine ≤ 11) :
    echoData (lastLine : Int) st =
        .ok { st with tx := st.tx ++ programBlocks 0 (st.program.take (lastLine + 1)) ++
                profileBlocks 0 st.profiles } ∧
      (∀ i l, (programHeader i l).count '\n' = 1) ∧ (∀ buf, (hexLine buf).count '\n' = 1) ∧
      (∀ i l, l.mode = 0 → programBlock i l = programHeader i l ++ hexLine l.single) ∧
      (∀ i l, l.mode = 1 → programBlock i l =
        programHeader i l ++ (hexLine l.drLimits ++ hexLine l.drStepSize ++ hexLine l.drRate)) ∧
      (∀ i l, l.mode ≠ 0 → l.mode ≠ 1 → programBlock i l = programHeader i l) ∧
      (∀ k p, profileBlock k p = hexField k ++ [',', '\n'] ++ hexLine p.dataArray) := by
  refine ⟨?_, count_newline_programHeader, count_newline_hexLine, ?_, ?_, ?_, fun _ _ => rfl⟩
  · have h := echoData_eq st halloc (lastLine : Int) (by omega) (by omega)
    have e : ((lastLine : Int) + 1).toNat = lastLine + 1 := by omega
    rw [e] at h
    exact h
  · intro i l h
    simp [programBlock, h]
  · intro i l h
    simp [programBlock, h]
  · intro i l h0 h1
    simp [programBlock, h0, h1]

theorem echoData_blocks_witness :
    Allocated singleToneUploaded ∧ (0 : Nat) ≤ 11 ∧
      echoData 0 singleToneUploaded =
        .ok { singleToneUploaded with
              tx := [] ++ programBlocks 0 (singleToneUploaded.program.take (0 + 1)) ++
                profileBlocks 0 singleToneUploaded.profiles } :=
  ⟨by decide, by decide, (echoData_blocks singleToneUploaded (by decide) 0 (by decide)).1⟩

/-- C20: on allocated tables whose enabled flags are `k` times true followed by
`12 - k` times false, `k ≤ 12`, `echoData(findEnabledLines())` prints the blocks
of the Steps 0..`k - 1` in order, each once, then the blocks of the 8 Profiles,
and nothing else. The index 12, which `findEnabledLines` passes on when `k` is
12, is rejected by `serialPrintProgram` with the return value -1 and an
unchanged state; for `k = 0` no program block is printed. -/
theorem echoEnabled_blocks (st : Firmware) (halloc : Allocated st) (k : Nat) (hk : k ≤ 12)
    (hflags : st.program.map line.enabled =
      List.replicate k true ++ List.replicate (12 - k) false) :
    echoEnabled st =
        .ok { st with tx := st.tx ++ programBlocks 0 (st.program.take k) ++
                profileBlocks 0 st.profiles } ∧
      serialPrintProgram 12 st = .ok (some (-1), st) ∧
      (k = 12 → findEnabledLines st = .ok 12) ∧
      (k = 0 → programBlocks 0 (st.program.take k) = []) := by
  have hlen := halloc.1
  refine ⟨?_, serialPrintProgram_reject st 12 (by decide), ?_, ?_⟩
  · by_cases hk12 : k = 12
    · subst hk12
      have hall : ∀ l ∈ st.program, l.enabled = true := by
        intro l hl
        have hm : l.enabled ∈ st.program.map line.enabled := List.mem_map_of_mem _ hl
        rw [hflags] at hm
        simpa using hm
      have hfind : findEnabledLines st = .ok 12 :=
        findEnabledLinesLoop_all st.program 12 0 (by omega) hall
      simp only [echoEnabled, hfind]
      rw [echoData_eq st halloc 12 (by decide) (by decide)]
      have e : ((12 : Int) + 1).toNat = 13 := by decide
      have t13 : st.program.take 13 = st.program.take 12 := by
        rw [List.take_of_length_le (by omega), List.take_of_length_le (by omega)]
      rw [e, t13]
    · have hfind : findEnabledLines st = .ok ((k : Int) - 1) :=
        findEnabledLinesLoop_flags st.program k (12 - k) hflags 12 0 (by omega) (by omega)
          (by omega)
      simp only [echoEnabled, hfind]
      rw [echoData_eq st halloc _ (by omega) (by omega)]
      have e : ((k : Int) - 1 + 1).toNat = k := by omega
      rw [e]
  · intro hk12
    subst hk12
    have hall : ∀ l ∈ st.program, l.enabled = true := by
      intro l hl
      have hm : l.enabled ∈ st.program.map line.enabled := List.mem_map_of_mem _ hl
      rw [hflags] at hm
      simpa using hm
    exact findEnabledLinesLoop_all st.program 12 0 (by omega) hall
  · intro h0
    subst h0
    rfl

theorem echoEnabled_blocks_witness :
    Allocated allEnabledState ∧ (12 : Nat) ≤ 12 ∧
      allEnabledState.program.map line.enabled =
        List.replicate 12 true ++ List.replicate (12 - 12) false ∧
      echoEnabled allEnabledState =
        .ok { allEnabledState with
              tx := [] ++ programBlocks 0 (allEnabledState.program.take 12) ++
                profileBlocks 0 allEnabledState.profiles } :=
  ⟨by decide, by decide, by decide,
    (echoEnabled_blocks allEnabledState (by decide) 12 (by decide) (by decide)).1⟩
/-! ## Echo and parser -/

theorem flatten_sep_eq_intercalate (sep : Char) :
    ∀ (fields : List (List Char)), fields ≠ [] →
      (fields.map fun f => f ++ [sep]).flatten = [sep].intercalate (fields ++ [[]])
  | [], h => absurd rfl h
  | [f], _ => by simp [List.intercalate]
  | f :: g :: rest, _ => by
    have ih := flatten_sep_eq_intercalate sep (g :: rest) (by simp)
    rw [List.map_cons, List.flatten_cons, ih]
    simp [List.intercalate]

theorem strtokAll_printed (fields : List (List Char)) (hf : ∀ f ∈ fields, isField f = true) :
    strtokAll (fields.map fun f => f ++ [',']).flatten = fields := by
  cases hfs : fields with
  | nil => rfl
  | cons f rest =>
    rw [← hfs]
    have hne : fields ≠ [] := by simp [hfs]
    have hsep : ∀ l ∈ fields ++ [[]], ',' ∉ l := by
      intro l hl hmem
      rcases List.mem_append.mp hl with h | h
      · exact (((isField_iff l).mp (hf l h)).2 _ hmem).1 rfl
      · simp at h
        subst h
        simp at hmem
    unfold strtokAll
    rw [flatten_sep_eq_intercalate ',' fields hne,
      List.splitOn_intercalate (fields ++ [[]]) ',' hsep (by simp), List.filter_append]
    have h1 : List.filter (fun t : List Char => !t.isEmpty) fields = fields := by
      rw [List.filter_eq_self]
      intro t ht
      have := (isField_iff t).mp (hf t ht)
      cases t with
      | nil => exact absurd rfl this.1
      | cons _ _ => rfl
    rw [h1]
    simp

set_option maxRecDepth 100000 in
/-- C18, as stated: the upload `0,0,0F,FF,00,00,20,00,00,00`, `Done` leads to the
tables `singleToneUploaded`, whose echo is `singleToneEcho`. Read back after
`disableLines` and `zeroProfiles`, the first echoed line `0,0,0,` is taken as a
data line for Step 0 with the one payload byte 0 and overwrites the first byte
of `single`; the second line `F,FF,0,0,20,0,0,0,` is taken as a data line for
Profile 3; the third line `0,` has no record type, so that `strtok` returns
`NULL` for it. -/
theorem echo_not_parsed_back :
    readLines 2
        (disableLines (zeroProfiles (bootState "0,0,0F,FF,00,00,20,00,00,00\nDone\n".toList))) =
      .ok ([0, -2], singleToneUploaded) ∧
    (echoEnabled singleToneUploaded).map Firmware.tx = .ok singleToneEcho ∧
    (singleToneUploaded.program[0]?).map line.single = some [0x0F, 0xFF, 0, 0, 0x20, 0, 0, 0] ∧
    (readLines 1 (receive (disableLines (zeroProfiles singleToneUploaded)) singleToneEcho)).map
        (fun r => (r.1, (r.2.program[0]?).map line.single)) =
      .ok ([0], some [0x00, 0xFF, 0, 0, 0x20, 0, 0, 0]) ∧
    (readLines 2 (receive (disableLines (zeroProfiles singleToneUploaded)) singleToneEcho)).map
        (fun r => (r.1, (r.2.profiles[3]?).map profile.dataArray)) =
      .ok ([0, 15], some [0, 0, 0x20, 0, 0, 0, 0, 0]) ∧
    readLines 3 (receive (disableLines (zeroProfiles singleToneUploaded)) singleToneEcho) =
      .error .nullToken := by
  refine ⟨by decide, by decide, by decide, by decide, by decide, by decide⟩

/-- C18, amended: for every buffer of bytes (values below 256), the print loop
of the echo prints each byte in hexadecimal followed by a comma, and the text
of that payload line, split at the commas and decoded field by field the way
`readLineFromSerial` decodes fields, gives back exactly the bytes of the
buffer. -/
theorem echo_payload_decodes (buf : List Nat) (tx : List Char) (hbytes : ∀ b ∈ buf, b < 256) :
    printBytesLoop buf buf.length 0 tx =
        .ok (tx ++ (buf.map fun b => hexField b ++ [',']).flatten) ∧
      (strtokAll (buf.map fun b => hexField b ++ [',']).flatten).map hexByte = buf := by
  refine ⟨printBytesLoop_full buf buf.length tx rfl, ?_⟩
  have hmap : (buf.map fun b => hexField b ++ [',']) =
      ((buf.map hexField).map fun f => f ++ [',']) := by
    simp [List.map_map, Function.comp_def]
  rw [hmap, strtokAll_printed (buf.map hexField)
    (by
      intro f hf
      obtain ⟨b, _, rfl⟩ := List.mem_map.mp hf
      exact isField_hexField b),
    List.map_map]
  apply List.ext_getElem?
  intro j
  rw [List.getElem?_map]
  cases hj : buf[j]? with
  | none => rfl
  | some b =>
    simp only [Option.map_some', Function.comp_apply]
    rw [hexByte_hexField b (hbytes b (List.getElem?_mem hj))]

theorem echo_payload_decodes_witness :
    (∀ b ∈ ([0x0F, 0xFF, 0, 0, 0x20, 0, 0, 0] : List Nat), b < 256) ∧
      printBytesLoop [0x0F, 0xFF, 0, 0, 0x20, 0, 0, 0] 8 0 [] =
        .ok "F,FF,0,0,20,0,0,0,".toList ∧
      (strtokAll "F,FF,0,0,20,0,0,0,".toList).map hexByte =
        [0x0F, 0xFF, 0, 0, 0x20, 0, 0, 0] := by
  have h := echo_payload_decodes [0x0F, 0xFF, 0, 0, 0x20, 0, 0, 0] [] (by decide)
  exact ⟨by decide, h.1, h.2⟩



end AD9910
